import Mathlib

/-!
# vee: a constraint validation engine

A shallow embedding of the Go package `vee` (`constraints.go`, `validation.go`, `str.go`,
`range.go`, `len.go`) and theorems about its evaluation semantics.

## Modelling conventions

* A Go pointer to a constraint node (`*ValueConstraints[T]`, `*StrLenConstraint`, ...) is a Lean
  record holding the node's immutable fields and the *address* of its mutable `Value` field.
  The contents of all `Value` fields live in `State.mem`; two records with the same address are
  the same Go node.  `SetValue` writes the store, `Check` reads it.
* The interfaces `Checkable` and `CheckableValue[T]` are records of state transformers, so a
  child of a combinator is an arbitrary implementation of the interface.
* Allocation (`&T{...}`, `new(T)`) takes the next free address of the state.  The three
  package-level nodes of `str.go` are allocated once, at addresses 0, 1 and 2.
* The package variable `DefaultCheckSemantic` is a field of the state.
* Values of every Go type are embedded in `Val`; Go's static typing (which the embedding does not
  enforce) guarantees that a `string` constraint only ever holds a `Val.str`, and so on.
* An `error` is `error.nil` or a non-nil error value.
* `Validate` methods, and the predicates of `If`, are taken to read their input only; a
  function check (`Func`) may change the state.
* The hook `any(v).(Validatable)` follows Go's method sets: a defined type `T` has the methods
  declared with receiver `T`, a pointer type `*T` those declared with receiver `*T` or `T`.
* A panic is not a result of `Check`.  The two places where the code can panic (`Len` on a value
  without a length, and a `Validate` with value receiver reached through a nil pointer) are
  marked in the definitions, and the theorems are stated for inputs that do not reach them.
* Go strings are taken to be valid UTF-8, so that their runes are the characters of a Lean
  string.
-/

namespace vee

/-! ## Values -/

/-- Go values that can be bound into a constraint.  `named t u` is a value of the defined type `t`
whose underlying value is `u` (for example `LoginType(25)` is `named "LoginType" (int 25)`).
`ptr t target` is a value of the pointer type `*t`: `t` is the name of the element type when
that is a defined type (`"LoginType"` for `*LoginType`, `"int"` for `*int`) and the empty string
otherwise (as for `**T`, which has no methods); `target` is `none` for the nil pointer, which
keeps its type. -/
inductive Val where
  | int (n : Int) : Val
  | str (s : String) : Val
  | slice (items : List Val) : Val
  | ptr (elem : String) (target : Option Val) : Val
  | named (type : String) (underlying : Val) : Val

/-- The Go string held by a value of type `string`. -/
def Val.toStr : Val → String
  | .str s => s
  | _ => ""

/-- The elements of a value of a type `T ~[]E`, in index order. -/
def Val.items : Val → List Val
  | .slice xs => xs
  | .named _ u => u.items
  | _ => []

/-- The target of a value of a type `T ~*E`; `none` is the nil pointer. -/
def Val.deref : Val → Option Val
  | .ptr _ t => t
  | .named _ u => u.deref
  | _ => none

/-- The operator `<` of `constraints.Ordered` on integers and strings (and on defined types over
them). -/
def Val.lt : Val → Val → Bool
  | .int a, .int b => decide (a < b)
  | .str a, .str b => decide (a < b)
  | .named _ a, .named _ b => Val.lt a b
  | _, _ => false

/-- The verb `%v` of package `fmt` applied to a value of an ordered type without a `String`
method. -/
def Val.fmtV : Val → String
  | .int n => toString n
  | .str s => s
  | .named _ u => u.fmtV
  | _ => ""

/-! ## Error model (`validation.go`) -/

/-- A Go value of interface type `error`: `nil`, an error carrying only a message
(`errors.New`, `fmt.Errorf`), an `ErrField` or an `ErrList`. -/
inductive error where
  | nil : error
  | New (text : String) : error
  | ErrField (FieldName : String) (Err : error) : error
  | ErrList (el : List error) : error

instance error.decEqNil (e : error) : Decidable (e = error.nil) :=
  match e with
  | .nil => isTrue rfl
  | .New _ => isFalse (fun h => error.noConfusion h)
  | .ErrField _ _ => isFalse (fun h => error.noConfusion h)
  | .ErrList _ => isFalse (fun h => error.noConfusion h)

mutual
/-- The text `fmt.Sprintf("%v", err)` of an error: `<nil>` for nil, otherwise the result of its
`Error` method. -/
def error.fmtV : error → String
  | .nil => "<nil>"
  | .New text => text
  | .ErrField FieldName Err => FieldName ++ ": " ++ Err.fmtV
  | .ErrList [e] => e.fmtV
  | .ErrList el => "[" ++ ErrList.write el 0 ++ "]"
/-- The loop of `ErrList.Error`: what is written to the builder for the members `el`, the first of
which has index `i`. -/
def ErrList.write : List error → Nat → String
  | [], _ => ""
  | err :: rest, i => (if i ≠ 0 then ", " else "") ++ err.fmtV ++ ErrList.write rest (i + 1)
end

/-- The method `func (el ErrList) Error() string`. -/
def ErrList.Error (el : List error) : String :=
  if el.length = 1 then
    match el with
    | e :: _ => e.fmtV
    | [] => ""
  else
    "[" ++ ErrList.write el 0 ++ "]"

/-- The method `func (ef ErrField) Error() string`: `fmt.Sprintf("%s: %v", ef.FieldName, ef.Err)`. -/
def ErrField.Error (FieldName : String) (Err : error) : String :=
  FieldName ++ ": " ++ Err.fmtV

/-- The method call `err.Error()` on a value of interface type `error`; `none` is the run-time
panic of a call through a nil interface. -/
def error.Error : error → Option String
  | .nil => none
  | .New text => some text
  | .ErrField FieldName Err => some (ErrField.Error FieldName Err)
  | .ErrList el => some (ErrList.Error el)

/-- The function `FieldError`. -/
def FieldError (name : String) (err : error) : error :=
  .ErrField name err

/-- The loop of `ErrList.Dto`: appends one single-entry map per member to `errMap`; `none` is a
panic. -/
def ErrList.Dto.loop : List error → List (List (String × String)) →
    Option (List (List (String × String)))
  | [], errMap => some errMap
  | .ErrField FieldName Err :: rest, errMap =>
    match Err.Error with
    | some m => ErrList.Dto.loop rest (errMap ++ [[(FieldName, m)]])
    | none => none
  | err :: rest, errMap =>
    match err.Error with
    | some m => ErrList.Dto.loop rest (errMap ++ [[("", m)]])
    | none => none

/-- The method `func (el ErrList) Dto() []map[string]string`; a map is the list of its entries. -/
def ErrList.Dto (el : List error) : Option (List (List (String × String))) :=
  ErrList.Dto.loop el []

/-! ## Program state -/

/-- The type `CheckSemantic` with its two constants. -/
inductive CheckSemantic where
  | CheckSemanticFirst : CheckSemantic
  | CheckSemanticAll : CheckSemantic
  deriving DecidableEq, Repr

export CheckSemantic (CheckSemanticFirst CheckSemanticAll)

/-- The mutable state of a program using the package: the package variable
`DefaultCheckSemantic`, the next free address, and the contents of the `Value` fields of all
nodes (and of any variable a predicate or function check reads). -/
structure State where
  DefaultCheckSemantic : CheckSemantic
  next : Nat
  mem : Nat → Val

/-- Assignment to the `Value` field at address `a`. -/
def State.write (s : State) (a : Nat) (v : Val) : State :=
  { s with mem := fun b => if b = a then v else s.mem b }

/-- Allocation of a node: its address and the state after it.  (Go zeroes the new `Value` field;
here its content is whatever the store held, and no theorem depends on it.) -/
def State.alloc (s : State) : Nat × State :=
  (s.next, { s with next := s.next + 1 })

/-- Assignment to the package variable `DefaultCheckSemantic`. -/
def State.setDefault (s : State) (semantic : CheckSemantic) : State :=
  { s with DefaultCheckSemantic := semantic }

/-- The state after package initialisation: the default is `CheckSemanticFirst` and the three
package-level nodes of `str.go` occupy addresses 0, 1, 2 with the zero string as value. -/
def State.init : State :=
  { DefaultCheckSemantic := CheckSemanticFirst, next := 3, mem := fun _ => .str "" }

/-! ## Interfaces -/

/-- The interface `Checkable`. -/
structure Checkable where
  Check : State → error × State

/-- The interface `CheckableValue[T]`. -/
structure CheckableValue extends Checkable where
  SetValue : Val → State → State

/-- The `Validate` methods declared by the program, by receiver type: at `"T"` the method
`func (x T) Validate() error` of the defined type `T`, at `"*T"` the method
`func (x *T) Validate() error`, each as a function of its receiver, if the program declares it.
`Validate` is taken to be free of side effects. -/
abbrev Methods := String → Option (Val → error)

/-- The type assertion `any(value).(Validatable)` followed by the call `t.Validate()`.  The
result is `none` when the assertion fails, `some (some err)` when it succeeds and the call
returns `err`, and `some none` when it succeeds and the call panics.  The method set of a
defined type `T` holds the methods with receiver `T`; the method set of `*T` holds those with
receiver `*T` and those with receiver `T`, and a method with receiver `T` called through a
pointer is applied to the target, which panics on the nil pointer. -/
def Validatable (Validate : Methods) : Val → Option (Option error)
  | .named t u => (Validate t).map (fun m => some (m (.named t u)))
  | .ptr t target =>
    match Validate ("*" ++ t) with
    | some m => some (some (m (.ptr t target)))
    | none =>
      match Validate t with
      | some m => some (target.map m)
      | none => none
  | _ => none

/-- The block
`if t, ok := any(value).(Validatable); ok { err := t.Validate(); if err != nil { return err } }`:
the error it returns, or `none` when control falls through.  When the call panics nothing is
returned; the result is then `none` as well, and the statements about bound values that may be
pointers assume `Validatable` to be `none` or `some (some err)` at that value. -/
def validateHook (Validate : Methods) (value : Val) : Option error :=
  match Validatable Validate value with
  | some (some err) => if err ≠ .nil then some err else none
  | _ => none

/-! ## Composite combinators (`constraints.go`) -/

/-- The struct `ValueConstraint[T]`; `Value` is the address of the field. -/
structure ValueConstraint where
  Value : Nat
  Constraint : CheckableValue

/-- The struct `ValueConstraints[T]`; `Value` is the address of the field. -/
structure ValueConstraints where
  Value : Nat
  Constraints : List CheckableValue
  Semantic : CheckSemantic

/-- The struct `FieldConstraint[T]`. -/
structure FieldConstraint where
  Constraint : CheckableValue
  FieldName : String

/-- The struct `EachConstraint[T, E]`; `Value` is the address of the field. -/
structure EachConstraint where
  Value : Nat
  Constraint : CheckableValue

/-- The struct `IfConstraint[T]`; `Value` is the address of the field.  The predicate is a
closure that may read the program state. -/
structure IfConstraint where
  Value : Nat
  Predicate : State → Bool
  Constraint : CheckableValue

/-- The struct `IfNotNilConstraint[T, E]`; `Value` is the address of the field. -/
structure IfNotNilConstraint where
  Value : Nat
  Constraint : CheckableValue

/-- The struct `FuncConstraint`; the function is a closure over the program state. -/
structure FuncConstraint where
  Func : State → error × State

/-- The struct `SchemaConstraint`. -/
structure SchemaConstraint where
  Constraints : List Checkable

/-- The loop `for _, con := range cons { err := con.Check(); if err != nil { e = append(e, err) } }`
over the `Check` methods of the children: the list `e` after the loop.  (`e` starts as the nil
slice, so the later test `e != nil` holds exactly when `e` is not empty.) -/
def checkAll : List (State → error × State) → List error → State → List error × State
  | [], e, s => (e, s)
  | check :: rest, e, s =>
    let r := check s
    checkAll rest (if r.1 ≠ .nil then e ++ [r.1] else e) r.2

/-- The loop `for _, con := range cons { err := con.Check(); if err != nil { return err } }`:
`some err` when the loop returns `err`, `none` when it runs to its end. -/
def checkFirst : List (State → error × State) → State → Option error × State
  | [], s => (none, s)
  | check :: rest, s =>
    let r := check s
    if r.1 ≠ .nil then (some r.1, r.2) else checkFirst rest r.2

/-- The method `func (c *ValueConstraint[T]) SetValue(value T)`. -/
def ValueConstraint.SetValue (c : ValueConstraint) (value : Val) (s : State) : State :=
  s.write c.Value value

/-- The method `func (c *ValueConstraint[T]) Check() error`. -/
def ValueConstraint.Check (Validate : Methods) (c : ValueConstraint) (s : State) : error × State :=
  match validateHook Validate (s.mem c.Value) with
  | some err => (err, s)
  | none =>
    let r := c.Constraint.Check s
    if r.1 ≠ .nil then (r.1, r.2) else (.nil, r.2)

/-- The method `func (c *ValueConstraints[T]) SetValue(value T)`. -/
def ValueConstraints.SetValue (c : ValueConstraints) (value : Val) (s : State) : State :=
  c.Constraints.foldl (fun s con => con.SetValue value s) (s.write c.Value value)

/-- The method `func (c *ValueConstraints[T]) Check() error`. -/
def ValueConstraints.Check (Validate : Methods) (c : ValueConstraints) (s : State) :
    error × State :=
  let children : Option error × State :=
    if c.Semantic = CheckSemanticAll then
      let r := checkAll (c.Constraints.map (fun con => con.Check)) [] s
      if !r.1.isEmpty then (some (.ErrList r.1), r.2) else (none, r.2)
    else
      checkFirst (c.Constraints.map (fun con => con.Check)) s
  match children.1 with
  | some err => (err, children.2)
  | none =>
    match validateHook Validate (children.2.mem c.Value) with
    | some err => (err, children.2)
    | none => (.nil, children.2)

/-- The method `func (c *FieldConstraint[T]) SetValue(value T)`. -/
def FieldConstraint.SetValue (c : FieldConstraint) (value : Val) (s : State) : State :=
  c.Constraint.SetValue value s

/-- The method `func (c *FieldConstraint[T]) Check() error`. -/
def FieldConstraint.Check (c : FieldConstraint) (s : State) : error × State :=
  let r := c.Constraint.Check s
  if r.1 ≠ .nil then (FieldError c.FieldName r.1, r.2) else (.nil, r.2)

/-- The method `func (c *EachConstraint[T, E]) SetValue(value T)`. -/
def EachConstraint.SetValue (c : EachConstraint) (value : Val) (s : State) : State :=
  s.write c.Value value

/-- The loop of the all-failures branch of `EachConstraint.Check` over the items that remain,
the first of which has index `i`: the list `e` after the loop. -/
def EachConstraint.checkAll (con : CheckableValue) :
    Nat → List Val → List error → State → List error × State
  | _, [], e, s => (e, s)
  | i, item :: rest, e, s =>
    let r := con.Check (con.SetValue item s)
    let ie : List error := if r.1 ≠ .nil then [r.1] else []
    EachConstraint.checkAll con (i + 1) rest
      (if ie.length > 0 then e ++ [FieldError ("#" ++ toString i) (.ErrList ie)] else e) r.2

/-- The loop of the first-failure branch of `EachConstraint.Check`: `some err` when the loop
returns `err`, `none` when it runs to its end. -/
def EachConstraint.checkFirst (con : CheckableValue) :
    Nat → List Val → State → Option error × State
  | _, [], s => (none, s)
  | i, item :: rest, s =>
    let r := con.Check (con.SetValue item s)
    if r.1 ≠ .nil then (some (FieldError ("#" ++ toString i) r.1), r.2)
    else EachConstraint.checkFirst con (i + 1) rest r.2

/-- The method `func (c *EachConstraint[T, E]) Check() error`. -/
def EachConstraint.Check (c : EachConstraint) (s : State) : error × State :=
  if s.DefaultCheckSemantic = CheckSemanticAll then
    let r := EachConstraint.checkAll c.Constraint 0 (s.mem c.Value).items [] s
    if !r.1.isEmpty then (.ErrList r.1, r.2) else (.nil, r.2)
  else
    let r := EachConstraint.checkFirst c.Constraint 0 (s.mem c.Value).items s
    match r.1 with
    | some err => (err, r.2)
    | none => (.nil, r.2)

/-- The method `func (c *IfConstraint[T]) SetValue(value T)`. -/
def IfConstraint.SetValue (c : IfConstraint) (value : Val) (s : State) : State :=
  s.write c.Value value

/-- The method `func (c *IfConstraint[T]) Check() error`. -/
def IfConstraint.Check (c : IfConstraint) (s : State) : error × State :=
  if c.Predicate s then
    c.Constraint.Check (c.Constraint.SetValue (s.mem c.Value) s)
  else
    (.nil, s)

/-- The method `func (c *IfNotNilConstraint[T, E]) SetValue(value T)`. -/
def IfNotNilConstraint.SetValue (c : IfNotNilConstraint) (value : Val) (s : State) : State :=
  s.write c.Value value

/-- The method `func (c *IfNotNilConstraint[T, E]) Check() error`. -/
def IfNotNilConstraint.Check (c : IfNotNilConstraint) (s : State) : error × State :=
  match (s.mem c.Value).deref with
  | some target => c.Constraint.Check (c.Constraint.SetValue target s)
  | none => (.nil, s)

/-- The method `func (c *SchemaConstraint) Check() error`. -/
def SchemaConstraint.Check (c : SchemaConstraint) (s : State) : error × State :=
  if s.DefaultCheckSemantic = CheckSemanticAll then
    let r := checkAll (c.Constraints.map (fun con => con.Check)) [] s
    if !r.1.isEmpty then (.ErrList r.1, r.2) else (.nil, r.2)
  else
    let r := checkFirst (c.Constraints.map (fun con => con.Check)) s
    match r.1 with
    | some err => (err, r.2)
    | none => (.nil, r.2)

/-- The method `func (c *FuncConstraint) Check() error`. -/
def FuncConstraint.Check (c : FuncConstraint) (s : State) : error × State :=
  c.Func s

/-- A `*ValueConstraint[T]` as a `CheckableValue[T]`. -/
def ValueConstraint.toCheckableValue (Validate : Methods) (c : ValueConstraint) :
    CheckableValue :=
  { Check := c.Check Validate, SetValue := c.SetValue }

/-- A `*ValueConstraints[T]` as a `CheckableValue[T]`. -/
def ValueConstraints.toCheckableValue (Validate : Methods) (c : ValueConstraints) :
    CheckableValue :=
  { Check := c.Check Validate, SetValue := c.SetValue }

/-- A `*FieldConstraint[T]` as a `CheckableValue[T]`. -/
def FieldConstraint.toCheckableValue (c : FieldConstraint) : CheckableValue :=
  { Check := c.Check, SetValue := c.SetValue }

/-- A `*EachConstraint[T, E]` as a `CheckableValue[T]`. -/
def EachConstraint.toCheckableValue (c : EachConstraint) : CheckableValue :=
  { Check := c.Check, SetValue := c.SetValue }

/-- A `*IfConstraint[T]` as a `CheckableValue[T]`. -/
def IfConstraint.toCheckableValue (c : IfConstraint) : CheckableValue :=
  { Check := c.Check, SetValue := c.SetValue }

/-- A `*IfNotNilConstraint[T, E]` as a `CheckableValue[T]`. -/
def IfNotNilConstraint.toCheckableValue (c : IfNotNilConstraint) : CheckableValue :=
  { Check := c.Check, SetValue := c.SetValue }

/-- A `*FuncConstraint` as a `Checkable`. -/
def FuncConstraint.toCheckable (c : FuncConstraint) : Checkable :=
  { Check := c.Check }

/-- A `*SchemaConstraint` as a `Checkable`. -/
def SchemaConstraint.toCheckable (c : SchemaConstraint) : Checkable :=
  { Check := c.Check }

/-! ### Constructors

Every constructor is a function of the state: it returns the new node and the state after the
allocations and bindings it performs. -/

/-- The function `Constraints`. -/
def Constraints (Validate : Methods) (semantic : CheckSemantic) (cons : List CheckableValue)
    (s : State) : CheckableValue × State :=
  let a := s.alloc
  (ValueConstraints.toCheckableValue Validate
    { Value := a.1, Constraints := cons, Semantic := semantic }, a.2)

/-- The function `Value`. -/
def Value (Validate : Methods) (value : Val) (cons : List CheckableValue) (s : State) :
    CheckableValue × State :=
  let c := Constraints Validate s.DefaultCheckSemantic cons s
  let s1 := c.1.SetValue value c.2
  let a := s1.alloc
  (ValueConstraint.toCheckableValue Validate { Value := a.1, Constraint := c.1 },
    a.2.write a.1 value)

/-- The function `Field`. -/
def Field (Validate : Methods) (name : String) (value : Val) (cons : List CheckableValue)
    (s : State) : CheckableValue × State :=
  let v := Value Validate value cons s
  (FieldConstraint.toCheckableValue { Constraint := v.1, FieldName := name }, v.2)

/-- The function `Each`. -/
def Each (Validate : Methods) (cons : List CheckableValue) (s : State) :
    CheckableValue × State :=
  let c := Constraints Validate s.DefaultCheckSemantic cons s
  let a := c.2.alloc
  (EachConstraint.toCheckableValue { Value := a.1, Constraint := c.1 }, a.2)

/-- The function `If`. -/
def If (Validate : Methods) (predicate : State → Bool) (cons : List CheckableValue)
    (s : State) : CheckableValue × State :=
  let c := Constraints Validate s.DefaultCheckSemantic cons s
  let a := c.2.alloc
  (IfConstraint.toCheckableValue { Value := a.1, Predicate := predicate, Constraint := c.1 },
    a.2)

/-- The function `IfNotNil`. -/
def IfNotNil (Validate : Methods) (cons : List CheckableValue) (s : State) :
    CheckableValue × State :=
  let c := Constraints Validate s.DefaultCheckSemantic cons s
  let a := c.2.alloc
  (IfNotNilConstraint.toCheckableValue { Value := a.1, Constraint := c.1 }, a.2)

/-- The function `First`. -/
def First (Validate : Methods) (cons : List CheckableValue) (s : State) :
    CheckableValue × State :=
  Constraints Validate CheckSemanticFirst cons s

/-- The function `All`. -/
def All (Validate : Methods) (cons : List CheckableValue) (s : State) :
    CheckableValue × State :=
  Constraints Validate CheckSemanticAll cons s

/-- The function `Func`. -/
def Func (f : State → error × State) (s : State) : Checkable × State :=
  (FuncConstraint.toCheckable { Func := f }, s)

/-- The function `Schema`. -/
def Schema (cons : List Checkable) (s : State) : Checkable × State :=
  (SchemaConstraint.toCheckable { Constraints := cons }, s)

/-! ## String constraints (`str.go`) -/

/-- The function `utf8.RuneCountInString`; a Lean string is a sequence of code points, so the
count is its length. -/
def utf8.RuneCountInString (s : String) : Int :=
  s.length

/-- The predicates `unicode.IsUpper`, `unicode.IsLower` and `unicode.IsNumber` of the Go standard
library, whose tables are not part of the package. -/
structure Unicode where
  IsUpper : Char → Bool
  IsLower : Char → Bool
  IsNumber : Char → Bool

/-- The struct `StrLenConstraint`; `Value` is the address of the field. -/
structure StrLenConstraint where
  Value : Nat
  MinLength : Int
  MaxLength : Int

/-- The struct `StrMinLenConstraint`; `Value` is the address of the field. -/
structure StrMinLenConstraint where
  Value : Nat
  MinLength : Int

/-- The struct `StrMaxLenConstraint`; `Value` is the address of the field. -/
structure StrMaxLenConstraint where
  Value : Nat
  MaxLength : Int

/-- The struct `NotBlankConstraint`; `Value` is the address of the field. -/
structure NotBlankConstraint where
  Value : Nat

/-- The struct `ContainsPredicateConstraint`; `Value` is the address of the field. -/
structure ContainsPredicateConstraint where
  Value : Nat
  ErrorMessage : String
  Predicate : Char → Bool

/-- The struct `IfNotBlankConstraint`; `Value` is the address of the field. -/
structure IfNotBlankConstraint where
  Value : Nat
  Constraint : CheckableValue

/-- The package variable `notBlankError`. -/
def notBlankError : error :=
  .New "cannot be blank"

/-- The method `func (c *StrLenConstraint) SetValue(value string)`. -/
def StrLenConstraint.SetValue (c : StrLenConstraint) (value : Val) (s : State) : State :=
  s.write c.Value value

/-- The method `func (c *StrLenConstraint) Check() error`. -/
def StrLenConstraint.Check (c : StrLenConstraint) (s : State) : error × State :=
  let l := utf8.RuneCountInString (s.mem c.Value).toStr
  if c.MinLength = c.MaxLength ∧ l ≠ c.MinLength then
    (.New ("must have " ++ toString c.MaxLength ++ " characters"), s)
  else if l > c.MaxLength then
    (.New ("must have " ++ toString c.MaxLength ++ " characters at most"), s)
  else if l < c.MinLength then
    (.New ("must have " ++ toString c.MinLength ++ " characters at least"), s)
  else
    (.nil, s)

/-- The method `func (c *StrMinLenConstraint) SetValue(value string)`. -/
def StrMinLenConstraint.SetValue (c : StrMinLenConstraint) (value : Val) (s : State) : State :=
  s.write c.Value value

/-- The method `func (c *StrMinLenConstraint) Check() error`. -/
def StrMinLenConstraint.Check (c : StrMinLenConstraint) (s : State) : error × State :=
  let l := utf8.RuneCountInString (s.mem c.Value).toStr
  if l < c.MinLength then
    (.New ("must have " ++ toString c.MinLength ++ " characters at least"), s)
  else
    (.nil, s)

/-- The method `func (c *StrMaxLenConstraint) SetValue(value string)`. -/
def StrMaxLenConstraint.SetValue (c : StrMaxLenConstraint) (value : Val) (s : State) : State :=
  s.write c.Value value

/-- The method `func (c *StrMaxLenConstraint) Check() error`. -/
def StrMaxLenConstraint.Check (c : StrMaxLenConstraint) (s : State) : error × State :=
  let l := utf8.RuneCountInString (s.mem c.Value).toStr
  if l > c.MaxLength then
    (.New ("must have " ++ toString c.MaxLength ++ " characters at most"), s)
  else
    (.nil, s)

/-- The method `func (c *NotBlankConstraint) SetValue(value string)`. -/
def NotBlankConstraint.SetValue (c : NotBlankConstraint) (value : Val) (s : State) : State :=
  s.write c.Value value

/-- The method `func (c *NotBlankConstraint) Check() error`. -/
def NotBlankConstraint.Check (c : NotBlankConstraint) (s : State) : error × State :=
  if (s.mem c.Value).toStr = "" then (notBlankError, s) else (.nil, s)

/-- The method `func (c *ContainsPredicateConstraint) SetValue(value string)`. -/
def ContainsPredicateConstraint.SetValue (c : ContainsPredicateConstraint) (value : Val)
    (s : State) : State :=
  s.write c.Value value

/-- The method `func (c *ContainsPredicateConstraint) Check() error`: the loop over the runes of
the value returns nil at the first rune that satisfies the predicate. -/
def ContainsPredicateConstraint.Check (c : ContainsPredicateConstraint) (s : State) :
    error × State :=
  if (s.mem c.Value).toStr.data.any c.Predicate then (.nil, s) else (.New c.ErrorMessage, s)

/-- The method `func (c *IfNotBlankConstraint) SetValue(value string)`. -/
def IfNotBlankConstraint.SetValue (c : IfNotBlankConstraint) (value : Val) (s : State) : State :=
  s.write c.Value value

/-- The method `func (c *IfNotBlankConstraint) Check() error`. -/
def IfNotBlankConstraint.Check (c : IfNotBlankConstraint) (s : State) : error × State :=
  if (s.mem c.Value).toStr ≠ "" then
    c.Constraint.Check (c.Constraint.SetValue (s.mem c.Value) s)
  else
    (.nil, s)

/-- A `*StrLenConstraint` as a `CheckableValue[string]`. -/
def StrLenConstraint.toCheckableValue (c : StrLenConstraint) : CheckableValue :=
  { Check := c.Check, SetValue := c.SetValue }

/-- A `*StrMinLenConstraint` as a `CheckableValue[string]`. -/
def StrMinLenConstraint.toCheckableValue (c : StrMinLenConstraint) : CheckableValue :=
  { Check := c.Check, SetValue := c.SetValue }

/-- A `*StrMaxLenConstraint` as a `CheckableValue[string]`. -/
def StrMaxLenConstraint.toCheckableValue (c : StrMaxLenConstraint) : CheckableValue :=
  { Check := c.Check, SetValue := c.SetValue }

/-- A `*NotBlankConstraint` as a `CheckableValue[string]`. -/
def NotBlankConstraint.toCheckableValue (c : NotBlankConstraint) : CheckableValue :=
  { Check := c.Check, SetValue := c.SetValue }

/-- A `*ContainsPredicateConstraint` as a `CheckableValue[string]`. -/
def ContainsPredicateConstraint.toCheckableValue (c : ContainsPredicateConstraint) :
    CheckableValue :=
  { Check := c.Check, SetValue := c.SetValue }

/-- A `*IfNotBlankConstraint` as a `CheckableValue[string]`. -/
def IfNotBlankConstraint.toCheckableValue (c : IfNotBlankConstraint) : CheckableValue :=
  { Check := c.Check, SetValue := c.SetValue }

/-- The package variable `containsUpperConstraint`: one node, allocated at address 0. -/
def containsUpperConstraint (unicode : Unicode) : ContainsPredicateConstraint :=
  { Value := 0
    Predicate := unicode.IsUpper
    ErrorMessage := "must contain one upper case character at least" }

/-- The package variable `containsLowerConstraint`: one node, allocated at address 1. -/
def containsLowerConstraint (unicode : Unicode) : ContainsPredicateConstraint :=
  { Value := 1
    Predicate := unicode.IsLower
    ErrorMessage := "must contain one lower case character at least" }

/-- The package variable `containsNumberConstraint`: one node, allocated at address 2. -/
def containsNumberConstraint (unicode : Unicode) : ContainsPredicateConstraint :=
  { Value := 2
    Predicate := unicode.IsNumber
    ErrorMessage := "must contain one number character at least" }

/-- The function `StrLen`. -/
def StrLen (min max : Int) (s : State) : CheckableValue × State :=
  let a := s.alloc
  (StrLenConstraint.toCheckableValue { Value := a.1, MinLength := min, MaxLength := max }, a.2)

/-- The function `StrMinLen`. -/
def StrMinLen (min : Int) (s : State) : CheckableValue × State :=
  let a := s.alloc
  (StrMinLenConstraint.toCheckableValue { Value := a.1, MinLength := min }, a.2)

/-- The function `StrMaxLen`. -/
def StrMaxLen (max : Int) (s : State) : CheckableValue × State :=
  let a := s.alloc
  (StrMaxLenConstraint.toCheckableValue { Value := a.1, MaxLength := max }, a.2)

/-- The function `NotBlank`. -/
def NotBlank (s : State) : CheckableValue × State :=
  let a := s.alloc
  (NotBlankConstraint.toCheckableValue { Value := a.1 }, a.2)

/-- The function `IfNotBlank`. -/
def IfNotBlank (Validate : Methods) (cons : List CheckableValue) (s : State) :
    CheckableValue × State :=
  let c := Constraints Validate s.DefaultCheckSemantic cons s
  let a := c.2.alloc
  (IfNotBlankConstraint.toCheckableValue { Value := a.1, Constraint := c.1 }, a.2)

/-- The function `ContainsPredicate`. -/
def ContainsPredicate (predicate : Char → Bool) (message : String) (s : State) :
    CheckableValue × State :=
  let a := s.alloc
  (ContainsPredicateConstraint.toCheckableValue
    { Value := a.1, Predicate := predicate, ErrorMessage := message }, a.2)

/-- The function `ContainsUpper`: it returns the package-level node and allocates nothing. -/
def ContainsUpper (unicode : Unicode) (s : State) : CheckableValue × State :=
  ((containsUpperConstraint unicode).toCheckableValue, s)

/-- The function `ContainsLower`: it returns the package-level node and allocates nothing. -/
def ContainsLower (unicode : Unicode) (s : State) : CheckableValue × State :=
  ((containsLowerConstraint unicode).toCheckableValue, s)

/-- The function `ContainsNumber`: it returns the package-level node and allocates nothing. -/
def ContainsNumber (unicode : Unicode) (s : State) : CheckableValue × State :=
  ((containsNumberConstraint unicode).toCheckableValue, s)

/-! ## Range constraint (`range.go`) -/

/-- The struct `RangeConstraint[T]`; `Value` is the address of the field. -/
structure RangeConstraint where
  Value : Nat
  Min : Val
  Max : Val

/-- The method `func (c *RangeConstraint[T]) SetValue(value T)`. -/
def RangeConstraint.SetValue (c : RangeConstraint) (value : Val) (s : State) : State :=
  s.write c.Value value

/-- The method `func (c *RangeConstraint[T]) Check() error`. -/
def RangeConstraint.Check (c : RangeConstraint) (s : State) : error × State :=
  if Val.lt c.Max (s.mem c.Value) then
    (.New ("is greater than maximum " ++ c.Max.fmtV), s)
  else if Val.lt (s.mem c.Value) c.Min then
    (.New ("is less than minimum " ++ c.Min.fmtV), s)
  else
    (.nil, s)

/-- A `*RangeConstraint[T]` as a `CheckableValue[T]`. -/
def RangeConstraint.toCheckableValue (c : RangeConstraint) : CheckableValue :=
  { Check := c.Check, SetValue := c.SetValue }

/-- The function `Range`. -/
def Range (min max : Val) (s : State) : CheckableValue × State :=
  let a := s.alloc
  (RangeConstraint.toCheckableValue { Value := a.1, Min := min, Max := max }, a.2)

/-- The struct `MinConstraint[T]`; `Value` is the address of the field. -/
structure MinConstraint where
  Value : Nat
  Min : Val

/-- The struct `MaxConstraint[T]`; `Value` is the address of the field. -/
structure MaxConstraint where
  Value : Nat
  Max : Val

/-- The zero value of the type of a value: what a field of that type holds when a struct
literal does not set it. -/
def Val.zero : Val → Val
  | .int _ => .int 0
  | .str _ => .str ""
  | .slice _ => .slice []
  | .ptr t _ => .ptr t none
  | .named t u => .named t u.zero

/-- The method `func (c *MinConstraint[T]) SetValue(value T)`. -/
def MinConstraint.SetValue (c : MinConstraint) (value : Val) (s : State) : State :=
  s.write c.Value value

/-- The method `func (c *MinConstraint[T]) Check() error`. -/
def MinConstraint.Check (c : MinConstraint) (s : State) : error × State :=
  if Val.lt (s.mem c.Value) c.Min then
    (.New ("is less than minimum " ++ c.Min.fmtV), s)
  else
    (.nil, s)

/-- The method `func (c *MaxConstraint[T]) SetValue(value T)`. -/
def MaxConstraint.SetValue (c : MaxConstraint) (value : Val) (s : State) : State :=
  s.write c.Value value

/-- The method `func (c *MaxConstraint[T]) Check() error`. -/
def MaxConstraint.Check (c : MaxConstraint) (s : State) : error × State :=
  if Val.lt c.Max (s.mem c.Value) then
    (.New ("is greater than maximum " ++ c.Max.fmtV), s)
  else
    (.nil, s)

/-- A `*MinConstraint[T]` as a `CheckableValue[T]`. -/
def MinConstraint.toCheckableValue (c : MinConstraint) : CheckableValue :=
  { Check := c.Check, SetValue := c.SetValue }

/-- A `*MaxConstraint[T]` as a `CheckableValue[T]`. -/
def MaxConstraint.toCheckableValue (c : MaxConstraint) : CheckableValue :=
  { Check := c.Check, SetValue := c.SetValue }

/-- The function `Min`. -/
def Min (min : Val) (s : State) : CheckableValue × State :=
  let a := s.alloc
  (MinConstraint.toCheckableValue { Value := a.1, Min := min }, a.2)

/-- The function `Max`: it returns a `*RangeConstraint[T]` whose literal sets `Max` only, so
that `Min` holds the zero value of `T`. -/
def Max (max : Val) (s : State) : CheckableValue × State :=
  let a := s.alloc
  (RangeConstraint.toCheckableValue { Value := a.1, Min := max.zero, Max := max }, a.2)

/-! ## Length constraint (`len.go`) -/

/-- The length `reflect.ValueOf(value).Len()` of a value of kind slice (arrays and maps are not
among the embedded values); `none` for a value of another kind, on which `Check` panics. -/
def Val.len? : Val → Option Int
  | .slice xs => some xs.length
  | .named _ u => u.len?
  | _ => none

/-- The struct `LenConstraint[T]`; `Value` is the address of the field. -/
structure LenConstraint where
  Value : Nat
  Min : Int
  Max : Int

/-- The method `func (c *LenConstraint[T]) SetValue(value T)`. -/
def LenConstraint.SetValue (c : LenConstraint) (value : Val) (s : State) : State :=
  s.write c.Value value

/-- The method `func (c *LenConstraint[T]) Check() error`.  The branch
`default: panic("invalid value")`, taken for a value that is no slice, array or map, aborts the
program and has no outcome; the embedding gives it nil, and no theorem binds such a value. -/
def LenConstraint.Check (c : LenConstraint) (s : State) : error × State :=
  match (s.mem c.Value).len? with
  | none => (.nil, s)
  | some l =>
    if c.Min = c.Max ∧ l ≠ c.Min then
      (.New ("must have " ++ toString c.Max ++ " items"), s)
    else if l > c.Max then
      (.New ("must have " ++ toString c.Max ++ " items at most"), s)
    else if l < c.Min then
      (.New ("must have " ++ toString c.Min ++ " items at least"), s)
    else
      (.nil, s)

/-- A `*LenConstraint[T]` as a `CheckableValue[T]`. -/
def LenConstraint.toCheckableValue (c : LenConstraint) : CheckableValue :=
  { Check := c.Check, SetValue := c.SetValue }

/-- The function `Len`. -/
def Len (min max : Int) (s : State) : CheckableValue × State :=
  let a := s.alloc
  (LenConstraint.toCheckableValue { Value := a.1, Min := min, Max := max }, a.2)

/-! ## Test fixtures (`validation_test.go`) -/

/-- The method `func (lt LoginType) Validate() error` of the test file. -/
def LoginType.Validate : Val → error
  | .named _ (.int n) => if n ≠ 25 then .New "recursive validation" else .nil
  | _ => .nil

/-- The method table of the test program: `LoginType` is its only type with a `Validate`
method. -/
def testMethods : Methods :=
  fun t => if t = "LoginType" then some LoginType.Validate else none

/-- The conversion `LoginType(n)`. -/
def LoginType (n : Int) : Val :=
  .named "LoginType" (.int n)

/-- A program without `Validate` methods. -/
def noMethods : Methods :=
  fun _ => none

/-- The ASCII part of the Unicode tables: on ASCII runes it agrees with the Go library. -/
def Unicode.ascii : Unicode :=
  { IsUpper := Char.isUpper, IsLower := Char.isLower, IsNumber := Char.isDigit }

/-! ## Specification vocabulary -/

/-- What each child returns when the children are checked one after the other, in construction
order, starting in state `s`. -/
def outcomes : List (State → error × State) → State → List error
  | [], _ => []
  | check :: rest, s => (check s).1 :: outcomes rest (check s).2

/-- The first non-nil error of a list of outcomes; nil when every outcome is nil. -/
def firstFailure : List error → error
  | [] => .nil
  | e :: es => if e ≠ .nil then e else firstFailure es

/-- The non-nil errors of a list of outcomes, in order. -/
def failures (es : List error) : List error :=
  es.filter (fun e => decide (e ≠ .nil))

/-- The outcome of an all-failures aggregation: nil when nothing failed, otherwise the `ErrList`
of the failures. -/
def listOrNil : List error → error
  | [] => .nil
  | e :: es => .ErrList (e :: es)

/-- The node `con` never assigns the `Value` field at address `a`: a node owns its own field and
no child refers to it. -/
def Preserves (a : Nat) (con : CheckableValue) : Prop :=
  (∀ v s, (con.SetValue v s).mem a = s.mem a) ∧ ∀ s, (con.Check s).2.mem a = s.mem a

/-- What the child `con` returns on each element when it is re-bound to and checked on the
elements one after the other, in index order, starting in state `s`. -/
def elementOutcomes (con : CheckableValue) : List Val → State → List error
  | [], _ => []
  | item :: rest, s =>
    (con.Check (con.SetValue item s)).1
      :: elementOutcomes con rest (con.Check (con.SetValue item s)).2

/-- The failing positions of a list of outcomes: the pairs of a zero-based index and the non-nil
outcome found there, in ascending index order. -/
def failingAt (outs : List error) : List (Nat × error) :=
  outs.enum.filter (fun p => decide (p.2 ≠ .nil))

/-- A `Check` method never returns an empty `ErrList`. -/
def NeverEmptyList (check : State → error × State) : Prop :=
  ∀ s, (check s).1 ≠ .ErrList []

/-- The entry `Dto` is to produce for a member: the tag and rendering of the wrapped error for
a field-tagged member, the empty tag and the rendering of the member otherwise. -/
def ErrList.entry : error → String × String
  | .ErrField FieldName Err => (FieldName, Err.fmtV)
  | err => ("", err.fmtV)

/-- The outcome a sequential evaluation with the given semantic is to produce from the outcomes
of the children: the first non-nil outcome under first-failure, the list of all non-nil
outcomes under all-failures, nil when there is none. -/
def aggregate (semantic : CheckSemantic) (outs : List error) : error :=
  match semantic with
  | CheckSemanticFirst => firstFailure outs
  | CheckSemanticAll => listOrNil (failures outs)

/-- The outcome of a sequential combinator whose children have the outcomes `outs`, bound to a
value whose own `Validate` returns `hook` (nil for a value whose type has no such method): the
failure of the children under the semantic when some child fails, otherwise `hook`. -/
def sequentialOutcome (semantic : CheckSemantic) (outs : List error) (hook : error) : error :=
  if aggregate semantic outs ≠ .nil then aggregate semantic outs else hook

/-- Two values belong to one ordered type: both integers, both strings, or both of the same
defined type over such values. -/
def Val.sameOrdered : Val → Val → Prop
  | .int _, .int _ => True
  | .str _, .str _ => True
  | .named t a, .named u b => t = u ∧ Val.sameOrdered a b
  | _, _ => False

/-- The relation `a <= b` on the values of an ordered type. -/
def Val.le : Val → Val → Prop
  | .int a, .int b => a ≤ b
  | .str a, .str b => a ≤ b
  | .named _ a, .named _ b => Val.le a b
  | _, _ => False

/-- What the all-failures combinator over `NotBlank()` and `StrLen(2, 8)` is to return on a
string: nil for 2 to 8 characters, otherwise the list of the violated rules. -/
def tagOutcome (x : String) : error :=
  if 2 ≤ x.length ∧ x.length ≤ 8 then .nil
  else if 8 < x.length then .ErrList [.New "must have 8 characters at most"]
  else if x = "" then .ErrList [.New "cannot be blank", .New "must have 2 characters at least"]
  else .ErrList [.New "must have 2 characters at least"]

/-- What `Len(2, 12)` is to return on a sequence of `n` items. -/
def lenOutcome (n : Nat) : error :=
  if n < 2 then .New "must have 2 items at least"
  else if n > 12 then .New "must have 12 items at most"
  else .nil

/-- The value has no failing self-validation: the type assertion to `Validatable` fails on
it, or its `Validate` returns nil (a call that panics does neither). -/
def NoFailingValidate (Validate : Methods) (v : Val) : Prop :=
  Validatable Validate v = none ∨ Validatable Validate v = some (some .nil)

/-- The state reached when the child `con` has been re-bound to and checked on the elements one
after the other, in index order, starting in state `s`. -/
def elementsState (con : CheckableValue) : List Val → State → State
  | [], s => s
  | item :: rest, s => elementsState con rest (con.Check (con.SetValue item s)).2

/-! ## Basic facts about the store and the loops -/

@[simp] theorem State.write_mem (s : State) (a : Nat) (v : Val) (b : Nat) :
    (s.write a v).mem b = if b = a then v else s.mem b := rfl

@[simp] theorem State.write_default (s : State) (a : Nat) (v : Val) :
    (s.write a v).DefaultCheckSemantic = s.DefaultCheckSemantic := rfl

@[simp] theorem State.write_next (s : State) (a : Nat) (v : Val) :
    (s.write a v).next = s.next := rfl

@[simp] theorem State.alloc_fst (s : State) : s.alloc.1 = s.next := rfl

@[simp] theorem State.alloc_mem (s : State) : s.alloc.2.mem = s.mem := rfl

@[simp] theorem State.alloc_default (s : State) :
    s.alloc.2.DefaultCheckSemantic = s.DefaultCheckSemantic := rfl

@[simp] theorem State.alloc_next (s : State) : s.alloc.2.next = s.next + 1 := rfl

theorem checkFirst_fst (checks : List (State → error × State)) (s : State) :
    (checkFirst checks s).1 =
      if firstFailure (outcomes checks s) ≠ .nil then some (firstFailure (outcomes checks s))
      else none := by
  induction checks generalizing s with
  | nil => simp [checkFirst, outcomes, firstFailure]
  | cons check rest ih =>
    by_cases h : (check s).1 = .nil
    · simp [checkFirst, outcomes, firstFailure, h, ih]
    · simp [checkFirst, outcomes, firstFailure, h]

theorem checkAll_fst (checks : List (State → error × State)) (e : List error) (s : State) :
    (checkAll checks e s).1 = e ++ failures (outcomes checks s) := by
  induction checks generalizing e s with
  | nil => simp [checkAll, outcomes, failures]
  | cons check rest ih =>
    by_cases h : (check s).1 = .nil
    · simp [checkAll, outcomes, failures, h, ih]
    · simp [checkAll, outcomes, failures, h, ih]

theorem checkFirst_mem (a : Nat) (checks : List (State → error × State)) (s : State)
    (h : ∀ check ∈ checks, ∀ s, (check s).2.mem a = s.mem a) :
    (checkFirst checks s).2.mem a = s.mem a := by
  induction checks generalizing s with
  | nil => rfl
  | cons check rest ih =>
    have h1 := h check (List.mem_cons_self _ _) s
    have h2 := fun s => ih s (fun c hc => h c (List.mem_cons_of_mem _ hc))
    by_cases hn : (check s).1 = .nil
    · simp [checkFirst, hn, h2, h1]
    · simp [checkFirst, hn, h1]

theorem checkAll_mem (a : Nat) (checks : List (State → error × State)) (e : List error)
    (s : State) (h : ∀ check ∈ checks, ∀ s, (check s).2.mem a = s.mem a) :
    (checkAll checks e s).2.mem a = s.mem a := by
  induction checks generalizing e s with
  | nil => rfl
  | cons check rest ih =>
    have h1 := h check (List.mem_cons_self _ _) s
    have h2 := fun e s => ih e s (fun c hc => h c (List.mem_cons_of_mem _ hc))
    simp [checkAll, h2, h1]

theorem foldl_SetValue_mem (a : Nat) (cons : List CheckableValue) (v : Val) (s : State)
    (h : ∀ con ∈ cons, ∀ v s, (con.SetValue v s).mem a = s.mem a) :
    (cons.foldl (fun s con => con.SetValue v s) s).mem a = s.mem a := by
  induction cons generalizing s with
  | nil => rfl
  | cons con rest ih =>
    simp only [List.foldl_cons]
    rw [ih _ (fun c hc => h c (List.mem_cons_of_mem _ hc)), h con (List.mem_cons_self _ _)]

theorem listOrNil_eq_nil_iff (es : List error) : listOrNil es = .nil ↔ es = [] := by
  cases es <;> simp [listOrNil]

theorem validateHook_of_none (Validate : Methods) (v : Val)
    (h : Validatable Validate v = none) : validateHook Validate v = none := by
  simp [validateHook, h]

theorem validateHook_of_noFailing (Validate : Methods) (v : Val)
    (h : NoFailingValidate Validate v) : validateHook Validate v = none := by
  rcases h with h | h <;> simp [validateHook, h]

/-- The slot of a sequential combinator still holds the bound value after the children were
bound and checked, when no child assigns it. -/
theorem ValueConstraints_children_mem (c : ValueConstraints)
    (hown : ∀ con ∈ c.Constraints, Preserves c.Value con) (s : State) :
    (checkFirst (c.Constraints.map (fun con => con.Check)) s).2.mem c.Value = s.mem c.Value ∧
    ∀ e, (checkAll (c.Constraints.map (fun con => con.Check)) e s).2.mem c.Value
      = s.mem c.Value := by
  have h : ∀ check ∈ c.Constraints.map (fun con => con.Check),
      ∀ s, (check s).2.mem c.Value = s.mem c.Value := by
    intro check hc
    obtain ⟨con, hcon, rfl⟩ := List.mem_map.1 hc
    exact (hown con hcon).2
  exact ⟨checkFirst_mem _ _ _ h, fun e => checkAll_mem _ _ e _ h⟩

theorem ValueConstraints_SetValue_mem (c : ValueConstraints)
    (hown : ∀ con ∈ c.Constraints, Preserves c.Value con) (v : Val) (s : State) :
    (c.SetValue v s).mem c.Value = v := by
  unfold ValueConstraints.SetValue
  rw [foldl_SetValue_mem _ _ _ _ (fun con hc => (hown con hc).1)]
  simp

/-- The outcome of `ValueConstraints.Check` in a state where the bound value has no failing
hook and no child assigns the node's slot. -/
theorem ValueConstraints_Check_fst (Validate : Methods) (c : ValueConstraints) (s : State)
    (hown : ∀ con ∈ c.Constraints, Preserves c.Value con)
    (hv : validateHook Validate (s.mem c.Value) = none) :
    (c.Check Validate s).1 =
      if c.Semantic = CheckSemanticAll
      then listOrNil (failures (outcomes (c.Constraints.map (fun con => con.Check)) s))
      else firstFailure (outcomes (c.Constraints.map (fun con => con.Check)) s) := by
  obtain ⟨hf, ha⟩ := ValueConstraints_children_mem c hown s
  unfold ValueConstraints.Check
  by_cases hsem : c.Semantic = CheckSemanticAll
  · simp only [hsem, if_true]
    rw [checkAll_fst]
    cases hfl : failures (outcomes (c.Constraints.map (fun con => con.Check)) s) with
    | nil => simp [listOrNil, ha, hv]
    | cons e es => simp [listOrNil]
  · simp only [hsem, if_false]
    rw [checkFirst_fst]
    by_cases hff : firstFailure (outcomes (c.Constraints.map (fun con => con.Check)) s) = .nil
    · simp [hff, hf, hv]
    · simp [hff]

/-! ### Leaves assign only their own field -/

theorem NotBlankConstraint_preserves (c : NotBlankConstraint) (a : Nat) (h : a ≠ c.Value) :
    Preserves a c.toCheckableValue := by
  constructor
  · intro v s
    simp [NotBlankConstraint.toCheckableValue, NotBlankConstraint.SetValue, h]
  · intro s
    simp only [NotBlankConstraint.toCheckableValue, NotBlankConstraint.Check]
    split <;> rfl

theorem StrLenConstraint_preserves (c : StrLenConstraint) (a : Nat) (h : a ≠ c.Value) :
    Preserves a c.toCheckableValue := by
  constructor
  · intro v s
    simp [StrLenConstraint.toCheckableValue, StrLenConstraint.SetValue, h]
  · intro s
    simp only [StrLenConstraint.toCheckableValue, StrLenConstraint.Check]
    split_ifs <;> rfl

theorem RangeConstraint_preserves (c : RangeConstraint) (a : Nat) (h : a ≠ c.Value) :
    Preserves a c.toCheckableValue := by
  constructor
  · intro v s
    simp [RangeConstraint.toCheckableValue, RangeConstraint.SetValue, h]
  · intro s
    simp only [RangeConstraint.toCheckableValue, RangeConstraint.Check]
    split_ifs <;> rfl

theorem ContainsPredicateConstraint_preserves (c : ContainsPredicateConstraint) (a : Nat)
    (h : a ≠ c.Value) : Preserves a c.toCheckableValue := by
  constructor
  · intro v s
    simp [ContainsPredicateConstraint.toCheckableValue, ContainsPredicateConstraint.SetValue, h]
  · intro s
    simp only [ContainsPredicateConstraint.toCheckableValue, ContainsPredicateConstraint.Check]
    split_ifs <;> rfl

/-! ## C1, C2: the two semantics of the sequential combinator -/

/-- C1. A sequential combinator built by `First` over the children `cons` and bound to a value
`v` without `Validate` method (none in the method set of its type, so that the type assertion to
`Validatable` fails) returns, from `Check`, the first non-nil error among the outcomes
of its children taken in construction order, and nil when every child returns nil; the outcomes
of the children after the first failing one do not matter. -/
theorem First_returns_first_failure (Validate : Methods) (cons : List CheckableValue) (v : Val)
    (s : State) (hv : Validatable Validate v = none)
    (hown : ∀ con ∈ cons, Preserves s.next con) :
    let n := First Validate cons s
    let bound := n.1.SetValue v n.2
    (n.1.Check bound).1 = firstFailure (outcomes (cons.map (fun con => con.Check)) bound) := by
  intro n bound
  have hb : bound.mem s.next = v :=
    ValueConstraints_SetValue_mem
      { Value := s.next, Constraints := cons, Semantic := CheckSemanticFirst } hown v _
  have h := ValueConstraints_Check_fst Validate
    { Value := s.next, Constraints := cons, Semantic := CheckSemanticFirst } bound hown
    (by
      show validateHook Validate (bound.mem s.next) = none
      rw [hb]; exact validateHook_of_none _ _ hv)
  simpa using h

/-- C1 (witness). `First(NotBlank(), StrLen(8, 24))` bound to `"t"`. -/
theorem First_returns_first_failure_witness :
    let c1 := NotBlank State.init
    let c2 := StrLen 8 24 c1.2
    let n := First noMethods [c1.1, c2.1] c2.2
    let bound := n.1.SetValue (.str "t") n.2
    Validatable noMethods (.str "t") = none ∧
    (n.1.Check bound).1
      = firstFailure (outcomes ([c1.1, c2.1].map (fun con => con.Check)) bound) ∧
    (n.1.Check bound).1 = .New "must have 8 characters at least" :=
  ⟨rfl,
   First_returns_first_failure noMethods
     [(NotBlank State.init).1, (StrLen 8 24 (NotBlank State.init).2).1] (.str "t")
     (StrLen 8 24 (NotBlank State.init).2).2 rfl
     (by
       intro con hcon
       simp only [List.mem_cons, List.mem_singleton, List.not_mem_nil, or_false] at hcon
       rcases hcon with rfl | rfl
       · exact NotBlankConstraint_preserves _ _ (by decide)
       · exact StrLenConstraint_preserves _ _ (by decide)),
   rfl⟩

/-- C2. A sequential combinator built by `All` over the children `cons` and bound to a value `v`
without `Validate` method (none in the method set of its type, so that the type assertion to
`Validatable` fails) returns nil from `Check` when no child fails, and otherwise the
`ErrList` of the non-nil outcomes of its children, one per failing child, in construction
order. -/
theorem All_returns_all_failures (Validate : Methods) (cons : List CheckableValue) (v : Val)
    (s : State) (hv : Validatable Validate v = none)
    (hown : ∀ con ∈ cons, Preserves s.next con) :
    let n := All Validate cons s
    let bound := n.1.SetValue v n.2
    (n.1.Check bound).1 =
      listOrNil (failures (outcomes (cons.map (fun con => con.Check)) bound)) := by
  intro n bound
  have hb : bound.mem s.next = v :=
    ValueConstraints_SetValue_mem
      { Value := s.next, Constraints := cons, Semantic := CheckSemanticAll } hown v _
  have h := ValueConstraints_Check_fst Validate
    { Value := s.next, Constraints := cons, Semantic := CheckSemanticAll } bound hown
    (by
      show validateHook Validate (bound.mem s.next) = none
      rw [hb]; exact validateHook_of_none _ _ hv)
  simpa using h

/-- C2 (witness). `All(NotBlank(), StrLen(8, 24), ContainsPredicate(isDigit, ...))` bound to `"t"`:
the children are `[ok, fail_A, fail_B]` and the list is `[fail_A, fail_B]`. -/
theorem All_returns_all_failures_witness :
    let c1 := NotBlank State.init
    let c2 := StrLen 8 24 c1.2
    let c3 := ContainsPredicate Char.isDigit "must contain one number character at least" c2.2
    let n := All noMethods [c1.1, c2.1, c3.1] c3.2
    let bound := n.1.SetValue (.str "t") n.2
    Validatable noMethods (.str "t") = none ∧
    (n.1.Check bound).1
      = listOrNil (failures
          (outcomes ([c1.1, c2.1, c3.1].map (fun con => con.Check)) bound)) ∧
    outcomes ([c1.1, c2.1, c3.1].map (fun con => con.Check)) bound
      = [.nil, .New "must have 8 characters at least",
          .New "must contain one number character at least"] ∧
    (n.1.Check bound).1
      = .ErrList [.New "must have 8 characters at least",
          .New "must contain one number character at least"] :=
  ⟨rfl,
   All_returns_all_failures noMethods
     [(NotBlank State.init).1, (StrLen 8 24 (NotBlank State.init).2).1,
      (ContainsPredicate Char.isDigit "must contain one number character at least"
        (StrLen 8 24 (NotBlank State.init).2).2).1] (.str "t")
     (ContainsPredicate Char.isDigit "must contain one number character at least"
        (StrLen 8 24 (NotBlank State.init).2).2).2 rfl
     (by
       intro con hcon
       simp only [List.mem_cons, List.mem_singleton, List.not_mem_nil, or_false] at hcon
       rcases hcon with rfl | rfl | rfl
       · exact NotBlankConstraint_preserves _ _ (by decide)
       · exact StrLenConstraint_preserves _ _ (by decide)
       · exact ContainsPredicateConstraint_preserves _ _ (by decide)),
   rfl, rfl⟩

/-! ## C3: the value-binding wrapper and the `Validate` hook -/

/-- The node built by `Value` and the contents of the two slots it allocated. -/
theorem Value_state (Validate : Methods) (v : Val) (cons : List CheckableValue) (s : State)
    (hown : ∀ con ∈ cons, Preserves s.next con) :
    let c : ValueConstraints :=
      { Value := s.next, Constraints := cons, Semantic := s.DefaultCheckSemantic }
    let a := (c.SetValue v s.alloc.2).next
    (Value Validate v cons s).1
      = ValueConstraint.toCheckableValue Validate
          { Value := a, Constraint := c.toCheckableValue Validate } ∧
    (Value Validate v cons s).2.mem a = v ∧
    (Value Validate v cons s).2.mem s.next = v := by
  intro c a
  refine ⟨rfl, ?_, ?_⟩
  · simp [Value, Constraints, ValueConstraints.toCheckableValue, a, c]
  · have h := ValueConstraints_SetValue_mem c hown v s.alloc.2
    simp only [Value, Constraints, ValueConstraints.toCheckableValue, State.alloc_fst,
      State.write_mem, State.alloc_mem]
    split
    · rfl
    · exact h

/-- C3 (amended). For a value `v` with a `Validate` method, `Value(v, cons...).Check()` calls
`v.Validate()` first: when it returns an error `e`, `Check` returns `e` and checks no constraint
(the result is `e` whatever `cons` is, and the state is unchanged); only when it returns nil are
the constraints checked, and `Check` then returns their outcome under the default semantic in
force at construction: the first failure, or the list of failures, or nil when all pass. -/
theorem Value_validates_first (Validate : Methods) (cons : List CheckableValue) (v : Val)
    (s : State) (e : error) (hv : Validatable Validate v = some (some e))
    (hown : ∀ con ∈ cons, Preserves s.next con) :
    let n := Value Validate v cons s
    (e ≠ .nil → n.1.Check n.2 = (e, n.2)) ∧
    (e = .nil → (n.1.Check n.2).1 =
      if s.DefaultCheckSemantic = CheckSemanticAll
      then listOrNil (failures (outcomes (cons.map (fun con => con.Check)) n.2))
      else firstFailure (outcomes (cons.map (fun con => con.Check)) n.2)) := by
  intro n
  obtain ⟨hn, ha, hc⟩ := Value_state Validate v cons s hown
  constructor
  · intro he
    show (Value Validate v cons s).1.Check (Value Validate v cons s).2 = _
    rw [hn]
    simp only [ValueConstraint.toCheckableValue, ValueConstraint.Check, ha]
    simp [validateHook, hv, he]
  · intro he
    have hh : validateHook Validate v = none := by simp [validateHook, hv, he]
    have h := ValueConstraints_Check_fst Validate
      { Value := s.next, Constraints := cons, Semantic := s.DefaultCheckSemantic }
      (Value Validate v cons s).2 hown (by simpa [hc] using hh)
    show ((Value Validate v cons s).1.Check (Value Validate v cons s).2).1 = _
    rw [hn]
    simp only [ValueConstraint.toCheckableValue, ValueConstraint.Check, ha, hh]
    simp only [ValueConstraints.toCheckableValue]
    rw [← h]
    split <;> simp_all

/-- C3 (counterexample). `Value(LoginType(3), Range[LoginType](20, 30))`: the constraint fails on
the value (`is less than minimum 20`) and `Validate` fails too; `Check` returns the error of
`Validate`, not the constraint failure. -/
theorem Value_validates_first_counterexample :
    let c := Range (LoginType 20) (LoginType 30) State.init
    let n := Value testMethods (LoginType 3) [c.1] c.2
    (c.1.Check n.2).1 = .New "is less than minimum 20" ∧
    Validatable testMethods (LoginType 3) = some (some (.New "recursive validation")) ∧
    (n.1.Check n.2).1 = .New "recursive validation" ∧
    (n.1.Check n.2).1 ≠ (c.1.Check n.2).1 := by
  refine ⟨rfl, rfl, rfl, ?_⟩
  show error.New "recursive validation" ≠ error.New "is less than minimum 20"
  simp

/-- C3 (witness). `Value(LoginType(3), Range[LoginType](20, 30))`. -/
theorem Value_validates_first_witness :
    let c := Range (LoginType 20) (LoginType 30) State.init
    let n := Value testMethods (LoginType 3) [c.1] c.2
    Validatable testMethods (LoginType 3) = some (some (.New "recursive validation")) ∧
    n.1.Check n.2 = (.New "recursive validation", n.2) :=
  ⟨rfl,
   (Value_validates_first testMethods [(Range (LoginType 20) (LoginType 30) State.init).1]
      (LoginType 3) (Range (LoginType 20) (LoginType 30) State.init).2
      (.New "recursive validation") rfl
      (by
        intro con hcon
        simp only [List.mem_singleton] at hcon
        subst hcon
        exact RangeConstraint_preserves _ _ (by decide))).1 (by simp)⟩

/-! ## C4: re-binding a value-binding wrapper -/

/-- C4 (the code at the failing input). `n := Value("", NotBlank())` followed by
`n.SetValue("ab")`: `Check` still fails, with an error that renders as `cannot be blank`, the
constraint being evaluated against the value bound at construction, whereas
`Value("ab", NotBlank()).Check()` returns nil.  The same holds for
`Field("name", "", NotBlank())` re-bound with `SetValue("ab")`.  This is so in every initial
state, hence under either default semantic. -/
theorem SetValue_of_Value_not_forwarded (Validate : Methods) (s : State) :
    let c := NotBlank s
    let n := Value Validate (.str "") [c.1] c.2
    let n' := Value Validate (.str "ab") [c.1] c.2
    let f := Field Validate "name" (.str "") [c.1] c.2
    let f' := Field Validate "name" (.str "ab") [c.1] c.2
    ((n.1.Check (n.1.SetValue (.str "ab") n.2)).1 ≠ .nil ∧
      (n.1.Check (n.1.SetValue (.str "ab") n.2)).1.fmtV = "cannot be blank") ∧
    (n'.1.Check n'.2).1 = .nil ∧
    ((f.1.Check (f.1.SetValue (.str "ab") f.2)).1 ≠ .nil ∧
      (f.1.Check (f.1.SetValue (.str "ab") f.2)).1.fmtV = "name: cannot be blank") ∧
    (f'.1.Check f'.2).1 = .nil := by
  have d : ¬ ("ab" : String) = "" := by decide
  have a1 : ¬ s.next = s.next + 1 + 1 := by omega
  have a2 : ¬ s.next = s.next + 1 := by omega
  have a3 : ¬ s.next + 1 = s.next + 1 + 1 := by omega
  refine ⟨?_, ?_, ?_, ?_⟩ <;>
  cases hsem : s.DefaultCheckSemantic <;>
  simp [Field, Value, Constraints, NotBlank, FieldConstraint.toCheckableValue,
    FieldConstraint.Check, FieldConstraint.SetValue, FieldError,
    ValueConstraints.toCheckableValue, ValueConstraint.toCheckableValue,
    NotBlankConstraint.toCheckableValue, ValueConstraints.SetValue, ValueConstraint.SetValue,
    ValueConstraint.Check, ValueConstraints.Check, NotBlankConstraint.SetValue,
    NotBlankConstraint.Check, validateHook, Validatable, checkFirst, checkAll, Val.toStr,
    notBlankError, hsem, d, a1, a2, a3, error.fmtV]

/-! ## Outcomes of the loops of the each wrapper and of the schema -/

theorem failures_eq_nil (es : List error) (h : ∀ e ∈ es, e = .nil) : failures es = [] := by
  simp only [failures, List.filter_eq_nil_iff]
  intro e he
  simp [h e he]

theorem firstFailure_eq_nil (es : List error) (h : ∀ e ∈ es, e = .nil) :
    firstFailure es = .nil := by
  induction es with
  | nil => rfl
  | cons e es ih =>
    have he : e = .nil := h e (List.mem_cons_self _ _)
    simp [firstFailure, he, ih (fun x hx => h x (List.mem_cons_of_mem _ hx))]

theorem firstFailure_mem (es : List error) (h : firstFailure es ≠ .nil) :
    firstFailure es ∈ es := by
  induction es with
  | nil => simp [firstFailure] at h
  | cons e es ih =>
    by_cases he : e = .nil
    · simp only [firstFailure, he, ne_eq, not_true_eq_false, if_false] at h ⊢
      exact List.mem_cons_of_mem _ (ih h)
    · simp [firstFailure, he]

theorem outcomes_mem (checks : List (State → error × State)) (s : State) (e : error)
    (h : e ∈ outcomes checks s) : ∃ check ∈ checks, ∃ s', e = (check s').1 := by
  induction checks generalizing s with
  | nil => simp [outcomes] at h
  | cons check rest ih =>
    simp only [outcomes, List.mem_cons] at h
    rcases h with h | h
    · exact ⟨check, List.mem_cons_self _ _, s, h⟩
    · obtain ⟨c, hc, s', hs⟩ := ih _ h
      exact ⟨c, List.mem_cons_of_mem _ hc, s', hs⟩

/-- The tags added by the all-failures loop of `EachConstraint.Check`. -/
theorem EachConstraint_checkAll_fst (con : CheckableValue) (i : Nat) (items : List Val)
    (e : List error) (s : State) :
    (EachConstraint.checkAll con i items e s).1 =
      e ++ (((elementOutcomes con items s).enumFrom i).filter
              (fun p => decide (p.2 ≠ .nil))).map
            (fun p => FieldError ("#" ++ toString p.1) (.ErrList [p.2])) := by
  induction items generalizing i e s with
  | nil => simp [EachConstraint.checkAll, elementOutcomes]
  | cons item rest ih =>
    by_cases h : (con.Check (con.SetValue item s)).1 = .nil
    · simp [EachConstraint.checkAll, elementOutcomes, List.enumFrom_cons, h, ih]
    · simp [EachConstraint.checkAll, elementOutcomes, List.enumFrom_cons, h, ih]

theorem EachConstraint_checkFirst_fst (con : CheckableValue) (i : Nat) (items : List Val)
    (s : State) :
    (EachConstraint.checkFirst con i items s).1 =
      ((((elementOutcomes con items s).enumFrom i).filter
              (fun p => decide (p.2 ≠ .nil))).head?).map
            (fun p => FieldError ("#" ++ toString p.1) p.2) := by
  induction items generalizing i s with
  | nil => simp [EachConstraint.checkFirst, elementOutcomes]
  | cons item rest ih =>
    by_cases h : (con.Check (con.SetValue item s)).1 = .nil
    · simp [EachConstraint.checkFirst, elementOutcomes, List.enumFrom_cons, h, ih]
    · simp [EachConstraint.checkFirst, elementOutcomes, List.enumFrom_cons, h]

theorem enumFrom_filter_eq_nil (es : List error) (i : Nat) (h : ∀ e ∈ es, e = .nil) :
    (es.enumFrom i).filter (fun p => decide (p.2 ≠ .nil)) = [] := by
  simp only [List.filter_eq_nil_iff]
  rintro ⟨k, e⟩ hp
  obtain ⟨_, _, he⟩ := List.mem_enumFrom hp
  have hm : e ∈ es := he ▸ List.getElem_mem _
  simp [h e hm]

theorem ValueConstraints_absent (Validate : Methods) (c : ValueConstraints) (s : State)
    (hown : ∀ con ∈ c.Constraints, Preserves c.Value con)
    (hpass : ∀ e ∈ outcomes (c.Constraints.map (fun con => con.Check)) s, e = .nil)
    (hv : validateHook Validate (s.mem c.Value) = none) :
    (c.Check Validate s).1 = .nil := by
  rw [ValueConstraints_Check_fst Validate c s hown hv, failures_eq_nil _ hpass,
    firstFailure_eq_nil _ hpass]
  simp [listOrNil]

theorem SchemaConstraint_Check_fst (c : SchemaConstraint) (s : State) :
    (c.Check s).1 =
      if s.DefaultCheckSemantic = CheckSemanticAll
      then listOrNil (failures (outcomes (c.Constraints.map (fun con => con.Check)) s))
      else firstFailure (outcomes (c.Constraints.map (fun con => con.Check)) s) := by
  unfold SchemaConstraint.Check
  by_cases hsem : s.DefaultCheckSemantic = CheckSemanticAll
  · simp only [hsem, if_true]
    rw [checkAll_fst]
    cases hfl : failures (outcomes (c.Constraints.map (fun con => con.Check)) s) with
    | nil => simp [listOrNil]
    | cons e es => simp [listOrNil]
  · simp only [hsem, if_false]
    rw [checkFirst_fst]
    by_cases hff : firstFailure (outcomes (c.Constraints.map (fun con => con.Check)) s) = .nil
    · simp [hff]
    · simp [hff]

theorem EachConstraint_Check_fst (c : EachConstraint) (s : State) :
    (c.Check s).1 =
      if s.DefaultCheckSemantic = CheckSemanticAll
      then listOrNil ((failingAt (elementOutcomes c.Constraint (s.mem c.Value).items s)).map
        (fun p => FieldError ("#" ++ toString p.1) (.ErrList [p.2])))
      else match (failingAt (elementOutcomes c.Constraint (s.mem c.Value).items s)).head? with
        | some p => FieldError ("#" ++ toString p.1) p.2
        | none => .nil := by
  unfold EachConstraint.Check failingAt List.enum
  by_cases hsem : s.DefaultCheckSemantic = CheckSemanticAll
  · simp only [hsem, if_true]
    rw [EachConstraint_checkAll_fst]
    simp only [List.nil_append]
    cases hfl : ((elementOutcomes c.Constraint (s.mem c.Value).items s).enumFrom 0).filter
        (fun p => decide (p.2 ≠ .nil)) with
    | nil => simp [listOrNil]
    | cons e es => simp [listOrNil]
  · simp only [hsem, if_false]
    rw [EachConstraint_checkFirst_fst]
    cases hfl : (((elementOutcomes c.Constraint (s.mem c.Value).items s).enumFrom 0).filter
        (fun p => decide (p.2 ≠ .nil))).head? with
    | none => simp
    | some p => simp

theorem listOrNil_ne_empty (es : List error) : listOrNil es ≠ .ErrList [] := by
  cases es <;> simp [listOrNil]

theorem validateHook_ne_empty (Validate : Methods)
    (hhook : ∀ v, Validatable Validate v ≠ some (some (.ErrList []))) (v : Val) :
    validateHook Validate v ≠ some (.ErrList []) := by
  unfold validateHook
  cases h : Validatable Validate v with
  | none => simp
  | some r =>
    cases r with
    | none => simp
    | some e =>
      by_cases he : e = .nil
      · simp [he]
      · simp only [ne_eq, he, not_false_eq_true, if_true, Option.some.injEq]
        intro h'
        exact hhook v (by rw [h, h'])

theorem firstFailure_ne_empty (checks : List (State → error × State)) (s : State)
    (h : ∀ check ∈ checks, NeverEmptyList check) :
    firstFailure (outcomes checks s) ≠ .ErrList [] := by
  by_cases hn : firstFailure (outcomes checks s) = .nil
  · simp [hn]
  · obtain ⟨check, hc, s', hs⟩ := outcomes_mem _ _ _ (firstFailure_mem _ hn)
    rw [hs]
    exact h check hc s'

theorem ValueConstraints_neverEmptyList (Validate : Methods)
    (hhook : ∀ v, Validatable Validate v ≠ some (some (.ErrList []))) (c : ValueConstraints)
    (h : ∀ con ∈ c.Constraints, NeverEmptyList con.Check) :
    NeverEmptyList (c.Check Validate) := by
  have hc : ∀ check ∈ c.Constraints.map (fun con => con.Check), NeverEmptyList check := by
    intro check hm
    obtain ⟨con, hcon, rfl⟩ := List.mem_map.1 hm
    exact h con hcon
  intro s
  unfold ValueConstraints.Check
  by_cases hsem : c.Semantic = CheckSemanticAll
  · simp only [hsem, if_true]
    rw [checkAll_fst]
    cases hfl : failures (outcomes (c.Constraints.map (fun con => con.Check)) s) with
    | nil =>
      simp only [List.nil_append, List.isEmpty_nil, Bool.not_true, Bool.false_eq_true, if_false]
      have := validateHook_ne_empty Validate hhook
        ((checkAll (c.Constraints.map (fun con => con.Check)) [] s).2.mem c.Value)
      split
      · rename_i err heq
        intro h'
        exact this (heq.trans (congrArg some h'))
      · simp
    | cons e es => simp
  · simp only [hsem, if_false]
    have hff := firstFailure_ne_empty _ s hc
    have h1 := checkFirst_fst (c.Constraints.map (fun con => con.Check)) s
    by_cases hn : firstFailure (outcomes (c.Constraints.map (fun con => con.Check)) s) = .nil
    · simp only [hn, ne_eq, not_true_eq_false, if_false] at h1
      simp only [h1]
      have := validateHook_ne_empty Validate hhook
        ((checkFirst (c.Constraints.map (fun con => con.Check)) s).2.mem c.Value)
      split
      · rename_i err heq
        intro h'
        exact this (heq.trans (congrArg some h'))
      · simp
    · simp only [ne_eq, hn, not_false_eq_true, if_true] at h1
      simp only [h1]
      exact hff

theorem SchemaConstraint_neverEmptyList (c : SchemaConstraint)
    (h : ∀ con ∈ c.Constraints, NeverEmptyList con.Check) : NeverEmptyList c.Check := by
  have hc : ∀ check ∈ c.Constraints.map (fun con => con.Check), NeverEmptyList check := by
    intro check hm
    obtain ⟨con, hcon, rfl⟩ := List.mem_map.1 hm
    exact h con hcon
  intro s
  rw [SchemaConstraint_Check_fst]
  split
  · exact listOrNil_ne_empty _
  · exact firstFailure_ne_empty _ s hc

theorem EachConstraint_neverEmptyList (c : EachConstraint) : NeverEmptyList c.Check := by
  intro s
  rw [EachConstraint_Check_fst]
  split
  · exact listOrNil_ne_empty _
  · split <;> simp [FieldError]

theorem FieldConstraint_neverEmptyList (c : FieldConstraint) : NeverEmptyList c.Check := by
  intro s
  by_cases h : (c.Constraint.Check s).1 = .nil <;> simp [FieldConstraint.Check, h, FieldError]

theorem ValueConstraint_neverEmptyList (Validate : Methods)
    (hhook : ∀ v, Validatable Validate v ≠ some (some (.ErrList []))) (c : ValueConstraint)
    (h : NeverEmptyList c.Constraint.Check) : NeverEmptyList (c.Check Validate) := by
  intro s
  unfold ValueConstraint.Check
  have := validateHook_ne_empty Validate hhook (s.mem c.Value)
  split
  · rename_i err heq
    intro h'
    exact this (heq.trans (congrArg some h'))
  · by_cases hn : (c.Constraint.Check s).1 = .nil
    · simp [hn]
    · simpa [hn] using h s
theorem failingAt_eq_nil (es : List error) (h : ∀ e ∈ es, e = .nil) : failingAt es = [] :=
  enumFrom_filter_eq_nil es 0 h

theorem EachConstraint_absent (c : EachConstraint) (s : State)
    (hpass : ∀ e ∈ elementOutcomes c.Constraint (s.mem c.Value).items s, e = .nil) :
    (c.Check s).1 = .nil := by
  rw [EachConstraint_Check_fst, failingAt_eq_nil _ hpass]
  simp [listOrNil]

theorem SchemaConstraint_absent (c : SchemaConstraint) (s : State)
    (hpass : ∀ e ∈ outcomes (c.Constraints.map (fun con => con.Check)) s, e = .nil) :
    (c.Check s).1 = .nil := by
  rw [SchemaConstraint_Check_fst, failures_eq_nil _ hpass, firstFailure_eq_nil _ hpass]
  simp [listOrNil]

theorem FieldConstraint_absent (c : FieldConstraint) (s : State)
    (hpass : (c.Constraint.Check s).1 = .nil) : (c.Check s).1 = .nil := by
  simp [FieldConstraint.Check, hpass]

theorem ValueConstraint_absent (Validate : Methods) (c : ValueConstraint) (s : State)
    (hv : validateHook Validate (s.mem c.Value) = none)
    (hpass : (c.Constraint.Check s).1 = .nil) : (c.Check Validate s).1 = .nil := by
  simp [ValueConstraint.Check, hv, hpass]

theorem IfConstraint_neverEmptyList (c : IfConstraint)
    (h : NeverEmptyList c.Constraint.Check) : NeverEmptyList c.Check := by
  intro s
  unfold IfConstraint.Check
  split
  · exact h _
  · simp

theorem IfNotNilConstraint_neverEmptyList (c : IfNotNilConstraint)
    (h : NeverEmptyList c.Constraint.Check) : NeverEmptyList c.Check := by
  intro s
  unfold IfNotNilConstraint.Check
  split
  · exact h _
  · simp

theorem LoginType_Validate_ne_emptyList (v : Val) : LoginType.Validate v ≠ .ErrList [] := by
  unfold LoginType.Validate
  split
  · split <;> simp
  · simp

theorem testMethods_ne_emptyList (v : Val) :
    Validatable testMethods v ≠ some (some (.ErrList [])) := by
  cases v with
  | named t u =>
    simp only [Validatable, testMethods]
    split_ifs
    · simp only [Option.map_some', ne_eq, Option.some.injEq]
      exact LoginType_Validate_ne_emptyList _
    · simp
  | ptr t target =>
    simp only [Validatable, testMethods]
    by_cases h1 : "*" ++ t = "LoginType"
    · simp only [h1, if_true, ne_eq, Option.some.injEq]
      exact LoginType_Validate_ne_emptyList _
    · simp only [h1, if_false]
      by_cases h2 : t = "LoginType"
      · simp only [h2, if_true]
        cases target with
        | none => simp
        | some u =>
          simp only [Option.map_some', ne_eq, Option.some.injEq]
          exact LoginType_Validate_ne_emptyList _
      · simp [h2]
  | _ => simp [Validatable]

theorem IfNotBlankConstraint_neverEmptyList (c : IfNotBlankConstraint)
    (h : NeverEmptyList c.Constraint.Check) : NeverEmptyList c.Check := by
  intro s
  unfold IfNotBlankConstraint.Check
  split
  · exact h _
  · simp

/-! ## C5: absence collapses -/

/-- C5. Absence-collapse.  For the sequential combinator (under either semantic), the schema and
the each wrapper (under either default semantic), the field wrapper and the value-binding
wrapper: when every child returns nil in its turn (for the each wrapper: on every element) and
the bound value has no failing `Validate` (its type has no such method in its method set, or
the method returns nil), `Check` returns nil.  Moreover, when no `Validate`
method returns an empty `ErrList`, a combinator whose children never return an empty `ErrList`
never returns one either, so no tree over leaves and function checks that never return an empty
list does. -/
theorem absence_collapse (Validate : Methods) :
    (∀ (c : ValueConstraints) (s : State),
      (∀ con ∈ c.Constraints, Preserves c.Value con) →
      (∀ e ∈ outcomes (c.Constraints.map (fun con => con.Check)) s, e = .nil) →
      NoFailingValidate Validate (s.mem c.Value) →
      (c.Check Validate s).1 = .nil) ∧
    (∀ (c : SchemaConstraint) (s : State),
      (∀ e ∈ outcomes (c.Constraints.map (fun con => con.Check)) s, e = .nil) →
      (c.Check s).1 = .nil) ∧
    (∀ (c : EachConstraint) (s : State),
      (∀ e ∈ elementOutcomes c.Constraint (s.mem c.Value).items s, e = .nil) →
      (c.Check s).1 = .nil) ∧
    (∀ (c : FieldConstraint) (s : State),
      (c.Constraint.Check s).1 = .nil → (c.Check s).1 = .nil) ∧
    (∀ (c : ValueConstraint) (s : State),
      NoFailingValidate Validate (s.mem c.Value) →
      (c.Constraint.Check s).1 = .nil → (c.Check Validate s).1 = .nil) ∧
    ((∀ v, Validatable Validate v ≠ some (some (.ErrList []))) →
      (∀ c : ValueConstraints, (∀ con ∈ c.Constraints, NeverEmptyList con.Check) →
        NeverEmptyList (c.Check Validate)) ∧
      (∀ c : SchemaConstraint, (∀ con ∈ c.Constraints, NeverEmptyList con.Check) →
        NeverEmptyList c.Check) ∧
      (∀ c : EachConstraint, NeverEmptyList c.Check) ∧
      (∀ c : FieldConstraint, NeverEmptyList c.Check) ∧
      (∀ c : ValueConstraint, NeverEmptyList c.Constraint.Check →
        NeverEmptyList (c.Check Validate)) ∧
      (∀ c : IfConstraint, NeverEmptyList c.Constraint.Check → NeverEmptyList c.Check) ∧
      (∀ c : IfNotNilConstraint, NeverEmptyList c.Constraint.Check →
        NeverEmptyList c.Check) ∧
      (∀ c : IfNotBlankConstraint, NeverEmptyList c.Constraint.Check →
        NeverEmptyList c.Check)) :=
  ⟨fun c s hown hpass hv =>
    ValueConstraints_absent Validate c s hown hpass (validateHook_of_noFailing _ _ hv),
   SchemaConstraint_absent,
   EachConstraint_absent,
   FieldConstraint_absent,
   fun c s hv hpass =>
    ValueConstraint_absent Validate c s (validateHook_of_noFailing _ _ hv) hpass,
   fun hhook =>
    ⟨ValueConstraints_neverEmptyList Validate hhook,
     SchemaConstraint_neverEmptyList,
     EachConstraint_neverEmptyList,
     FieldConstraint_neverEmptyList,
     ValueConstraint_neverEmptyList Validate hhook,
     IfConstraint_neverEmptyList,
     IfNotNilConstraint_neverEmptyList,
     IfNotBlankConstraint_neverEmptyList⟩⟩

/-- C5 (witness). `Field("name", "ab", NotBlank(), StrLen(2, 8))` and an each node over
`StrLen(2, 8)` bound to `["ab", "cd"]`, under the all-failures default, and
`All(Range[LoginType](20, 30))` bound to `LoginType(25)`, whose `Validate` returns nil. -/
theorem absence_collapse_witness :
    let c1 := NotBlank (State.init.setDefault CheckSemanticAll)
    let c2 := StrLen 2 8 c1.2
    let n := Field testMethods "name" (.str "ab") [c1.1, c2.1] c2.2
    let e := StrLen 2 8 n.2
    let each : EachConstraint := { Value := e.2.next, Constraint := e.1 }
    let bound := each.SetValue (.slice [.str "ab", .str "cd"]) e.2
    let q := Range (LoginType 20) (LoginType 30) State.init
    let m : ValueConstraints :=
      { Value := q.2.next, Constraints := [q.1], Semantic := CheckSemanticAll }
    (n.1.Check n.2).1 = .nil ∧ (each.Check bound).1 = .nil ∧
    (∀ s, (each.Check s).1 ≠ .ErrList []) ∧
    NoFailingValidate testMethods (LoginType 25) ∧
    (m.Check testMethods (m.SetValue (LoginType 25) q.2)).1 = .nil :=
  ⟨(absence_collapse testMethods).2.2.2.1
      { Constraint := (Value testMethods (.str "ab")
          [(NotBlank (State.init.setDefault CheckSemanticAll)).1,
           (StrLen 2 8 (NotBlank (State.init.setDefault CheckSemanticAll)).2).1]
          (StrLen 2 8 (NotBlank (State.init.setDefault CheckSemanticAll)).2).2).1,
        FieldName := "name" } _ rfl,
   (absence_collapse testMethods).2.2.1 _ _ (by
      intro e he
      simp only [EachConstraint.SetValue, State.write_mem, if_true, Val.items] at he
      have : ∀ s, elementOutcomes
          (StrLen 2 8 (Field testMethods "name" (.str "ab")
            [(NotBlank (State.init.setDefault CheckSemanticAll)).1,
             (StrLen 2 8 (NotBlank (State.init.setDefault CheckSemanticAll)).2).1]
            (StrLen 2 8 (NotBlank (State.init.setDefault CheckSemanticAll)).2).2).2).1
          [.str "ab", .str "cd"] s = [.nil, .nil] := fun s => rfl
      rw [this] at he
      simp at he
      exact he),
   ((absence_collapse testMethods).2.2.2.2.2 testMethods_ne_emptyList).2.2.1 _,
   Or.inr rfl,
   (absence_collapse testMethods).1
      { Value := (Range (LoginType 20) (LoginType 30) State.init).2.next,
        Constraints := [(Range (LoginType 20) (LoginType 30) State.init).1],
        Semantic := CheckSemanticAll } _
      (by
        intro con hcon
        simp only [List.mem_singleton] at hcon
        subst hcon
        exact RangeConstraint_preserves _ _ (by decide))
      (by
        intro e he
        have h : e ∈ [error.nil] := he
        simpa using h)
      (Or.inr rfl)⟩

/-! ## C6, C7: rendering and flattening of errors -/

theorem error_fmtV_ErrField (name : String) (err : error) :
    (error.ErrField name err).fmtV = ErrField.Error name err := by
  simp [error.fmtV, ErrField.Error]

theorem error_fmtV_ErrList (el : List error) :
    (error.ErrList el).fmtV = ErrList.Error el := by
  match el with
  | [] => simp [error.fmtV, ErrList.Error]
  | [e] => simp [error.fmtV, ErrList.Error]
  | e :: e' :: rest => simp [error.fmtV, ErrList.Error]

theorem error_Error_of_ne_nil (e : error) (h : e ≠ .nil) : e.Error = some e.fmtV := by
  cases e with
  | nil => exact absurd rfl h
  | New text => simp [error.Error, error.fmtV]
  | ErrField name err => simp [error.Error, error_fmtV_ErrField]
  | ErrList el => simp [error.Error, error_fmtV_ErrList]

theorem intercalate_go_eq_write (rest : List error) (acc : String) (i : Nat) (hi : i ≠ 0) :
    String.intercalate.go acc ", " (rest.map error.fmtV) = acc ++ ErrList.write rest i := by
  induction rest generalizing acc i with
  | nil => simp [String.intercalate.go, ErrList.write]
  | cons e rest ih =>
    simp only [List.map_cons, String.intercalate.go, ErrList.write, hi, ne_eq, not_false_eq_true,
      if_true]
    rw [ih _ (i + 1) (Nat.succ_ne_zero i)]
    simp only [String.append_assoc]

theorem intercalate_eq_write (el : List error) :
    ", ".intercalate (el.map error.fmtV) = ErrList.write el 0 := by
  cases el with
  | nil => simp [String.intercalate, ErrList.write]
  | cons e rest =>
    simp only [List.map_cons, String.intercalate, ErrList.write, ne_eq, not_true_eq_false,
      if_false]
    rw [intercalate_go_eq_write rest _ 1 (by decide)]
    simp

/-- C6 (amended). An `ErrList` with two or more members renders as `[`, the renderings of its
members in order joined by `, `, and `]`; an `ErrList` with exactly one member renders as that
member alone, without brackets.  Members that are lists or field-tagged errors are rendered by
the same rules, a field-tagged error as its name, `: ` and the rendering of the error it
wraps. -/
theorem ErrList_Error_joined :
    (∀ el : List error, 2 ≤ el.length →
      ErrList.Error el = "[" ++ ", ".intercalate (el.map error.fmtV) ++ "]") ∧
    (∀ e : error, ErrList.Error [e] = e.fmtV) ∧
    (∀ el : List error, (error.ErrList el).fmtV = ErrList.Error el) ∧
    (∀ (name : String) (err : error),
      (error.ErrField name err).fmtV = name ++ ": " ++ err.fmtV) := by
  refine ⟨?_, ?_, error_fmtV_ErrList, ?_⟩
  · intro el hel
    have h1 : el.length ≠ 1 := by omega
    simp only [ErrList.Error, h1, if_false, intercalate_eq_write]
  · intro e
    simp [ErrList.Error]
  · intro name err
    simp [error.fmtV]

/-- C6 (counterexample). The list with the single member `errors.New("a")` renders as `a`, not
as `[a]`. -/
theorem ErrList_Error_joined_counterexample :
    ErrList.Error [.New "a"] = "a" ∧
    ErrList.Error [.New "a"] ≠ "[" ++ ", ".intercalate ([error.New "a"].map error.fmtV) ++ "]" := by
  decide

/-- C6 (witness). The list of `a` and of the field-tagged list `x: [b, c]`. -/
theorem ErrList_Error_joined_witness :
    2 ≤ [error.New "a", .ErrField "x" (.ErrList [.New "b", .New "c"])].length ∧
    ErrList.Error [.New "a", .ErrField "x" (.ErrList [.New "b", .New "c"])] = "[a, x: [b, c]]" :=
  ⟨by decide,
   (ErrList_Error_joined.1 [.New "a", .ErrField "x" (.ErrList [.New "b", .New "c"])]
      (by decide)).trans (by decide)⟩

theorem ErrList_Dto_loop_eq (el : List error) (errMap : List (List (String × String)))
    (hnn : ∀ e ∈ el, e ≠ .nil ∧ ∀ name, e ≠ .ErrField name .nil) :
    ErrList.Dto.loop el errMap = some (errMap ++ el.map (fun e => [ErrList.entry e])) := by
  induction el generalizing errMap with
  | nil => simp [ErrList.Dto.loop]
  | cons e rest ih =>
    have hrest := fun m => ih m (fun x hx => hnn x (List.mem_cons_of_mem _ hx))
    obtain ⟨h1, h2⟩ := hnn e (List.mem_cons_self _ _)
    cases e with
    | nil => exact absurd rfl h1
    | New text =>
      simp [ErrList.Dto.loop, error.Error, hrest, ErrList.entry, error.fmtV]
    | ErrField name err =>
      have herr : err ≠ .nil := fun h => h2 name (by rw [h])
      simp [ErrList.Dto.loop, error_Error_of_ne_nil err herr, hrest, ErrList.entry]
    | ErrList l =>
      simp [ErrList.Dto.loop, error.Error, hrest, ErrList.entry, error_fmtV_ErrList]

/-- C7. For an `ErrList` of non-nil errors (no member is nil, and no field-tagged member wraps
nil), `Dto` returns, in the order of the members, one single-entry map per member: the entry of
`ErrField{name, inner}` is `(name, rendering of inner)`, the entry of any other member is
`("", rendering of the member)`.  In particular an error wrapped by `FieldError(name, inner)`
renders as `name: <inner>` and flattens to the entry `(name, <inner>)`. -/
theorem Dto_entries (el : List error)
    (hnn : ∀ e ∈ el, e ≠ .nil ∧ ∀ name, e ≠ .ErrField name .nil) :
    ErrList.Dto el = some (el.map (fun e => [ErrList.entry e])) ∧
    (∀ l, ErrList.Dto el = some l → l.length = el.length) ∧
    (∀ (name : String) (inner : error), inner ≠ .nil →
      (FieldError name inner).fmtV = name ++ ": " ++ inner.fmtV ∧
      ErrList.Dto [FieldError name inner] = some [[(name, inner.fmtV)]]) := by
  have h := ErrList_Dto_loop_eq el [] hnn
  simp only [List.nil_append] at h
  refine ⟨h, ?_, ?_⟩
  · intro l hl
    rw [ErrList.Dto, h] at hl
    cases hl
    simp
  · intro name inner hin
    refine ⟨by simp [FieldError, error.fmtV], ?_⟩
    simp [ErrList.Dto, ErrList.Dto.loop, FieldError, error_Error_of_ne_nil inner hin]

/-- C7 (witness). A field-tagged member, a plain member and a member that is a list. -/
theorem Dto_entries_witness :
    (∀ e ∈ [error.ErrField "x" (.New "a"), .New "b", .ErrList [.New "c", .New "d"]],
      e ≠ .nil ∧ ∀ name, e ≠ .ErrField name .nil) ∧
    ErrList.Dto [.ErrField "x" (.New "a"), .New "b", .ErrList [.New "c", .New "d"]]
      = some [[("x", "a")], [("", "b")], [("", "[c, d]")]] :=
  ⟨by simp,
   (Dto_entries [.ErrField "x" (.New "a"), .New "b", .ErrList [.New "c", .New "d"]]
      (by simp)).1.trans (by decide)⟩

/-! ## Ownership: a combinator assigns only its own field and those of its children -/

theorem ValueConstraints_preserves (Validate : Methods) (c : ValueConstraints) (a : Nat)
    (h : a ≠ c.Value) (hc : ∀ con ∈ c.Constraints, Preserves a con) :
    Preserves a (c.toCheckableValue Validate) := by
  have hchecks : ∀ check ∈ c.Constraints.map (fun con => con.Check),
      ∀ s, (check s).2.mem a = s.mem a := by
    intro check hm
    obtain ⟨con, hcon, rfl⟩ := List.mem_map.1 hm
    exact (hc con hcon).2
  constructor
  · intro v s
    show (c.SetValue v s).mem a = s.mem a
    unfold ValueConstraints.SetValue
    rw [foldl_SetValue_mem _ _ _ _ (fun con hcon => (hc con hcon).1)]
    simp [h]
  · intro s
    show (c.Check Validate s).2.mem a = s.mem a
    unfold ValueConstraints.Check
    have h1 := checkFirst_mem a _ s hchecks
    have h2 := checkAll_mem a _ [] s hchecks
    by_cases hsem : c.Semantic = CheckSemanticAll
    · simp only [hsem, if_true]
      split
      · split <;> simp_all
      · split <;> split <;> simp_all
    · simp only [hsem, if_false]
      split
      · exact h1
      · split <;> exact h1

theorem EachConstraint_checkAll_mem (con : CheckableValue) (a : Nat) (h : Preserves a con)
    (i : Nat) (items : List Val) (e : List error) (s : State) :
    (EachConstraint.checkAll con i items e s).2.mem a = s.mem a := by
  induction items generalizing i e s with
  | nil => rfl
  | cons item rest ih =>
    simp only [EachConstraint.checkAll]
    rw [ih, h.2, h.1]

theorem EachConstraint_checkFirst_mem (con : CheckableValue) (a : Nat) (h : Preserves a con)
    (i : Nat) (items : List Val) (s : State) :
    (EachConstraint.checkFirst con i items s).2.mem a = s.mem a := by
  induction items generalizing i s with
  | nil => rfl
  | cons item rest ih =>
    simp only [EachConstraint.checkFirst]
    split
    · simp only []
      rw [h.2, h.1]
    · rw [ih, h.2, h.1]

theorem EachConstraint_preserves (c : EachConstraint) (a : Nat) (h : a ≠ c.Value)
    (hc : Preserves a c.Constraint) : Preserves a c.toCheckableValue := by
  constructor
  · intro v s
    simp [EachConstraint.toCheckableValue, EachConstraint.SetValue, h]
  · intro s
    show (c.Check s).2.mem a = s.mem a
    unfold EachConstraint.Check
    have h1 := EachConstraint_checkAll_mem c.Constraint a hc 0 (s.mem c.Value).items [] s
    have h2 := EachConstraint_checkFirst_mem c.Constraint a hc 0 (s.mem c.Value).items s
    split
    · simp only []
      split <;> exact h1
    · simp only []
      split <;> exact h2

theorem ValueConstraint_preserves (Validate : Methods) (c : ValueConstraint) (a : Nat)
    (h : a ≠ c.Value) (hc : Preserves a c.Constraint) :
    Preserves a (c.toCheckableValue Validate) := by
  constructor
  · intro v s
    simp [ValueConstraint.toCheckableValue, ValueConstraint.SetValue, h]
  · intro s
    show (c.Check Validate s).2.mem a = s.mem a
    unfold ValueConstraint.Check
    split
    · rfl
    · by_cases hn : (c.Constraint.Check s).1 = .nil <;> simp [hn, hc.2]

theorem FieldConstraint_preserves (c : FieldConstraint) (a : Nat)
    (hc : Preserves a c.Constraint) : Preserves a c.toCheckableValue := by
  constructor
  · intro v s
    exact hc.1 v s
  · intro s
    show (c.Check s).2.mem a = s.mem a
    by_cases hn : (c.Constraint.Check s).1 = .nil <;> simp [FieldConstraint.Check, hn, hc.2]

/-- The outcome of the node built by `Value` for a value without failing `Validate`: the
outcome of the sequential combinator over the constraints. -/
theorem Value_Check_fst (Validate : Methods) (cons : List CheckableValue) (v : Val)
    (s : State) (hv : validateHook Validate v = none)
    (hown : ∀ con ∈ cons, Preserves s.next con) :
    ((Value Validate v cons s).1.Check (Value Validate v cons s).2).1 =
      if s.DefaultCheckSemantic = CheckSemanticAll
      then listOrNil (failures (outcomes (cons.map (fun con => con.Check))
        (Value Validate v cons s).2))
      else firstFailure (outcomes (cons.map (fun con => con.Check))
        (Value Validate v cons s).2) := by
  obtain ⟨hn, ha, hc⟩ := Value_state Validate v cons s hown
  have h := ValueConstraints_Check_fst Validate
    { Value := s.next, Constraints := cons, Semantic := s.DefaultCheckSemantic }
    (Value Validate v cons s).2 hown (by simpa [hc] using hv)
  rw [hn]
  simp only [ValueConstraint.toCheckableValue, ValueConstraint.Check, ha, hv]
  simp only [ValueConstraints.toCheckableValue]
  rw [← h]
  split <;> simp_all

theorem elementOutcomes_eq_map (con : CheckableValue) (f : Val → error) (items : List Val)
    (h : ∀ v ∈ items, ∀ s, (con.Check (con.SetValue v s)).1 = f v) (s : State) :
    elementOutcomes con items s = items.map f := by
  induction items generalizing s with
  | nil => rfl
  | cons item rest ih =>
    simp only [elementOutcomes, List.map_cons]
    rw [h item (List.mem_cons_self _ _), ih (fun v hv => h v (List.mem_cons_of_mem _ hv))]

theorem failingAt_single (pre post : List error) (e : error) (he : e ≠ .nil)
    (hpre : ∀ x ∈ pre, x = .nil) (hpost : ∀ x ∈ post, x = .nil) :
    failingAt (pre ++ e :: post) = [(pre.length, e)] := by
  unfold failingAt List.enum
  rw [List.enumFrom_append, List.filter_append, enumFrom_filter_eq_nil pre 0 hpre,
    List.enumFrom_cons, List.filter_cons, enumFrom_filter_eq_nil post _ hpost]
  simp [he]
/-! ## C8: field tags compose -/

theorem StrLenConstraint_Check_2_8 (a : Nat) (x : String) (s : State)
    (hm : s.mem a = .str x) :
    ((StrLenConstraint.mk a 2 8).Check s).1 =
      if (x.length : Int) < 2 then .New "must have 2 characters at least"
      else if (x.length : Int) > 8 then .New "must have 8 characters at most"
      else .nil := by
  have e1 : "must have " ++ toString (2 : Int) ++ " characters at least"
      = "must have 2 characters at least" := by decide
  have e2 : "must have " ++ toString (8 : Int) ++ " characters at most"
      = "must have 8 characters at most" := by decide
  simp only [StrLenConstraint.Check, hm, Val.toStr, utf8.RuneCountInString, e1, e2]
  split_ifs <;> first | rfl | omega

/-- The outcome, on a string element, of the child that `Each(StrLen(2, 8))` re-binds: the
sequential combinator over `StrLen(2, 8)` with the semantic `sem`. -/
theorem Each_StrLen_child (Validate : Methods) (a1 a2 : Nat) (h12 : a2 ≠ a1)
    (sem : CheckSemantic) (x : String) (s : State) :
    let child := ValueConstraints.toCheckableValue Validate
      { Value := a2, Constraints := [StrLenConstraint.toCheckableValue ⟨a1, 2, 8⟩],
        Semantic := sem }
    (child.Check (child.SetValue (.str x) s)).1 =
      if 2 ≤ x.length ∧ x.length ≤ 8 then .nil
      else if x.length < 2 then
        (if sem = CheckSemanticAll then .ErrList [.New "must have 2 characters at least"]
         else .New "must have 2 characters at least")
      else
        (if sem = CheckSemanticAll then .ErrList [.New "must have 8 characters at most"]
         else .New "must have 8 characters at most") := by
  intro child
  have hown : ∀ con ∈ [StrLenConstraint.toCheckableValue ⟨a1, 2, 8⟩], Preserves a2 con := by
    intro con hcon
    simp only [List.mem_singleton] at hcon
    subst hcon
    exact StrLenConstraint_preserves _ _ h12
  have h := ValueConstraints_Check_fst Validate
    { Value := a2, Constraints := [StrLenConstraint.toCheckableValue ⟨a1, 2, 8⟩],
      Semantic := sem } (child.SetValue (.str x) s) hown
    (by simp [child, ValueConstraints.toCheckableValue, ValueConstraints.SetValue,
          StrLenConstraint.toCheckableValue, StrLenConstraint.SetValue, h12, validateHook,
          Validatable])
  have hs := StrLenConstraint_Check_2_8 a1 x (child.SetValue (.str x) s)
    (by simp [child, ValueConstraints.toCheckableValue, ValueConstraints.SetValue,
          StrLenConstraint.toCheckableValue, StrLenConstraint.SetValue])
  show (ValueConstraints.Check Validate _ _).1 = _
  rw [h]
  simp only [List.map_cons, List.map_nil, outcomes, StrLenConstraint.toCheckableValue, hs]
  by_cases hlt : x.length < 2
  · have : ¬ (2 ≤ x.length ∧ x.length ≤ 8) := by omega
    have hlt' : (x.length : Int) < 2 := by omega
    simp [hlt, this, hlt', failures, listOrNil, firstFailure]
  · by_cases hgt : 8 < x.length
    · have : ¬ (2 ≤ x.length ∧ x.length ≤ 8) := by omega
      have hlt' : ¬ (x.length : Int) < 2 := by omega
      have hgt' : (x.length : Int) > 8 := by omega
      simp [hlt, this, hlt', hgt', failures, listOrNil, firstFailure]
    · have : (2 ≤ x.length ∧ x.length ≤ 8) := by omega
      have hlt' : ¬ (x.length : Int) < 2 := by omega
      have hgt' : ¬ (x.length : Int) > 8 := by omega
      simp [this, hlt', hgt', failures, listOrNil, firstFailure]
/-- A list splits around its element at index `i`. -/
theorem list_split_at (list : List String) (i : Nat) (hi : i < list.length)
    (P : String → Prop) (hother : ∀ j (hj : j < list.length), j ≠ i → P (list[j])) :
    list = list.take i ++ list[i] :: list.drop (i + 1) ∧ (list.take i).length = i ∧
    (∀ x ∈ list.take i, P x) ∧ (∀ x ∈ list.drop (i + 1), P x) := by
  refine ⟨?_, ?_, ?_, ?_⟩
  · rw [← List.drop_eq_getElem_cons hi, List.take_append_drop]
  · simp; omega
  · intro x hx
    obtain ⟨j, hj, rfl⟩ := List.mem_iff_getElem.1 hx
    simp only [List.length_take] at hj
    rw [List.getElem_take]
    exact hother j (by omega) (by omega)
  · intro x hx
    obtain ⟨j, hj, rfl⟩ := List.mem_iff_getElem.1 hx
    simp only [List.length_drop] at hj
    rw [List.getElem_drop]
    exact hother (i + 1 + j) (by omega) (by omega)

/-- C8. Under either default semantic (the one of the state in which the tree is built and
checked), for a list of strings whose element at index `i` has fewer than 2 characters and whose
other elements have between 2 and 8 characters, the error returned by
`Field("tags", list, Each(StrLen(2, 8))).Check()` renders as
`tags: #i: must have 2 characters at least`, with `i` in decimal. -/
theorem tags_compose (Validate : Methods) (list : List String) (i : Nat) (s : State)
    (hi : i < list.length) (hshort : (list[i]).length < 2)
    (hother : ∀ j (hj : j < list.length), j ≠ i →
      2 ≤ (list[j]).length ∧ (list[j]).length ≤ 8) :
    let c := StrLen 2 8 s
    let e := Each Validate [c.1] c.2
    let f := Field Validate "tags" (.slice (list.map Val.str)) [e.1] e.2
    (f.1.Check f.2).1.fmtV = "tags: #" ++ toString i ++ ": must have 2 characters at least" := by
  intro c e f
  -- the nodes and their addresses
  let child : CheckableValue := ValueConstraints.toCheckableValue Validate
    { Value := s.next + 1, Constraints := [StrLenConstraint.toCheckableValue ⟨s.next, 2, 8⟩],
      Semantic := s.DefaultCheckSemantic }
  let each : EachConstraint := { Value := s.next + 2, Constraint := child }
  have he1 : e.1 = each.toCheckableValue := rfl
  have he2 : e.2.next = s.next + 3 := rfl
  have hsem : e.2.DefaultCheckSemantic = s.DefaultCheckSemantic := rfl
  have hpres : ∀ con ∈ [e.1], Preserves e.2.next con := by
    intro con hcon
    simp only [List.mem_singleton] at hcon
    subst hcon
    rw [he1, he2]
    refine EachConstraint_preserves each _ (by simp [each]) ?_
    refine ValueConstraints_preserves Validate _ _ (by simp) ?_
    intro con hcon
    simp only [List.mem_singleton] at hcon
    subst hcon
    exact StrLenConstraint_preserves _ _ (by simp)
  have hv : validateHook Validate (.slice (list.map Val.str)) = none := by
    simp [validateHook, Validatable]
  have hval := Value_Check_fst Validate [e.1] (.slice (list.map Val.str)) e.2 hv hpres
  -- the state in which the tree is checked
  have hf2 : f.2 = (Value Validate (.slice (list.map Val.str)) [e.1] e.2).2 := rfl
  have hdef : f.2.DefaultCheckSemantic = s.DefaultCheckSemantic := rfl
  have hmem : f.2.mem (s.next + 2) = .slice (list.map Val.str) := by
    simp [hf2, Value, Constraints, ValueConstraints.toCheckableValue, ValueConstraints.SetValue,
      he1, EachConstraint.toCheckableValue, EachConstraint.SetValue, each, he2]
  -- the outcomes of the elements
  have hout : elementOutcomes child (list.map Val.str) f.2
      = (list.map Val.str).map (fun v =>
          if 2 ≤ v.toStr.length ∧ v.toStr.length ≤ 8 then error.nil
          else if v.toStr.length < 2 then
            (if s.DefaultCheckSemantic = CheckSemanticAll
             then .ErrList [.New "must have 2 characters at least"]
             else .New "must have 2 characters at least")
          else
            (if s.DefaultCheckSemantic = CheckSemanticAll
             then .ErrList [.New "must have 8 characters at most"]
             else .New "must have 8 characters at most")) := by
    apply elementOutcomes_eq_map
    intro v hv st
    obtain ⟨x, _, rfl⟩ := List.mem_map.1 hv
    exact Each_StrLen_child Validate s.next (s.next + 1) (by simp) s.DefaultCheckSemantic x st
  obtain ⟨hsplit, hlen, hpre, hpost⟩ := list_split_at list i hi
    (fun x => 2 ≤ x.length ∧ x.length ≤ 8) hother
  have hfail : failingAt (elementOutcomes child (list.map Val.str) f.2)
      = [(i, if s.DefaultCheckSemantic = CheckSemanticAll
             then .ErrList [.New "must have 2 characters at least"]
             else .New "must have 2 characters at least")] := by
    rw [hout, hsplit]
    simp only [List.map_append, List.map_cons, List.map_map]
    have h := failingAt_single
      ((list.take i).map ((fun v =>
          if 2 ≤ v.toStr.length ∧ v.toStr.length ≤ 8 then error.nil
          else if v.toStr.length < 2 then
            (if s.DefaultCheckSemantic = CheckSemanticAll
             then .ErrList [.New "must have 2 characters at least"]
             else .New "must have 2 characters at least")
          else
            (if s.DefaultCheckSemantic = CheckSemanticAll
             then .ErrList [.New "must have 8 characters at most"]
             else .New "must have 8 characters at most")) ∘ Val.str))
      ((list.drop (i + 1)).map ((fun v =>
          if 2 ≤ v.toStr.length ∧ v.toStr.length ≤ 8 then error.nil
          else if v.toStr.length < 2 then
            (if s.DefaultCheckSemantic = CheckSemanticAll
             then .ErrList [.New "must have 2 characters at least"]
             else .New "must have 2 characters at least")
          else
            (if s.DefaultCheckSemantic = CheckSemanticAll
             then .ErrList [.New "must have 8 characters at most"]
             else .New "must have 8 characters at most")) ∘ Val.str))
      (if s.DefaultCheckSemantic = CheckSemanticAll
             then .ErrList [.New "must have 2 characters at least"]
             else .New "must have 2 characters at least")
      (by split <;> simp)
      (by
        intro x hx
        obtain ⟨y, hy, rfl⟩ := List.mem_map.1 hx
        simp [Val.toStr, hpre y hy])
      (by
        intro x hx
        obtain ⟨y, hy, rfl⟩ := List.mem_map.1 hx
        simp [Val.toStr, hpost y hy])
    have hx : ¬ (2 ≤ (list[i]).length ∧ (list[i]).length ≤ 8) := by omega
    simp only [List.length_map, hlen] at h
    simp only [Val.toStr, hx, hshort, if_true, if_false]
    exact h
  have heach := EachConstraint_Check_fst each f.2
  rw [hdef] at heach
  simp only [each, hmem, Val.items] at heach
  rw [hfail] at heach
  -- assembling the outcome of the field
  have heach' : (e.1.Check f.2).1 = (each.Check f.2).1 := rfl
  have hR := hval
  rw [← hf2] at hR
  simp only [List.map_cons, List.map_nil, outcomes, hsem, heach', heach] at hR
  have hfield : (f.1.Check f.2).1
      = if ((Value Validate (.slice (list.map Val.str)) [e.1] e.2).1.Check f.2).1 ≠ .nil
        then FieldError "tags"
          ((Value Validate (.slice (list.map Val.str)) [e.1] e.2).1.Check f.2).1
        else .nil := by
    show (FieldConstraint.Check _ f.2).1 = _
    simp only [FieldConstraint.Check]
    split <;> rfl
  rw [hfield, hR]
  have e1 : ("tags: #" : String) = "tags" ++ (": " ++ "#") := by decide
  have e2 : (": must have 2 characters at least" : String)
      = ": " ++ "must have 2 characters at least" := by decide
  by_cases hall : s.DefaultCheckSemantic = CheckSemanticAll
  · simp only [hall, if_true, listOrNil, failures, FieldError, List.map_cons, List.map_nil,
      ne_eq, reduceCtorEq, not_false_eq_true, decide_True, List.filter_cons_of_pos,
      List.filter_nil, error.fmtV]
    rw [e1, e2]
    simp only [String.append_assoc]
  · simp only [hall, if_false, firstFailure, FieldError, List.head?_cons, ne_eq, reduceCtorEq,
      not_false_eq_true, if_true, error.fmtV]
    rw [e1, e2]
    simp only [String.append_assoc]

/-- C8 (witness). The list `["ab", "d"]` under the all-failures default. -/
theorem tags_compose_witness :
    let s := State.init.setDefault CheckSemanticAll
    let c := StrLen 2 8 s
    let e := Each noMethods [c.1] c.2
    let f := Field noMethods "tags" (.slice (["ab", "d"].map Val.str)) [e.1] e.2
    (["ab", "d"][1]).length < 2 ∧
    (f.1.Check f.2).1.fmtV = "tags: #1: must have 2 characters at least" :=
  ⟨by decide,
   (tags_compose noMethods ["ab", "d"] 1 (State.init.setDefault CheckSemanticAll)
      (by decide) (by decide)
      (by
        intro j hj hne
        have h0 : j = 0 := by
          simp only [List.length_cons, List.length_nil] at hj
          omega
        subst h0
        simp only [List.getElem_cons_zero]
        decide)).trans (by decide)⟩

/-! ## C9: the each wrapper under the all-failures default -/

theorem Dto_of_tagged (failing : List (Nat × error)) :
    ErrList.Dto (failing.map (fun p => FieldError ("#" ++ toString p.1) (.ErrList [p.2])))
      = some (failing.map (fun p => [("#" ++ toString p.1, p.2.fmtV)])) := by
  have hnn : ∀ e ∈ failing.map (fun p => FieldError ("#" ++ toString p.1) (.ErrList [p.2])),
      e ≠ .nil ∧ ∀ name, e ≠ .ErrField name .nil := by
    intro e he
    obtain ⟨p, _, rfl⟩ := List.mem_map.1 he
    simp [FieldError]
  have := ErrList_Dto_loop_eq _ [] hnn
  simp only [List.nil_append, List.map_map] at this
  rw [ErrList.Dto, this]
  congr 1

/-- C9 (amended). When the default semantic at `Check` time is all-failures, an each node bound
to a sequence returns nil if its child (for a node built by `Each(c)`: the sequential combinator
over `c`, which runs the element's own `Validate` when `c` passes), re-bound to and checked on
every element in index order, fails on no element, and otherwise the `ErrList` with one member
per element on which the child fails, in ascending index order, the member for index `k` being
field-tagged `#k`; `Dto` of that list yields the tags `#k` of the failing elements in that
order, so `#0` and `#2` for a 3-element sequence whose elements 0 and 2 fail. -/
theorem Each_all_failures (c : EachConstraint) (v : Val) (s : State)
    (hsem : s.DefaultCheckSemantic = CheckSemanticAll) :
    let bound := c.SetValue v s
    let failing := failingAt (elementOutcomes c.Constraint v.items bound)
    let members := failing.map (fun p => FieldError ("#" ++ toString p.1) (.ErrList [p.2]))
    (c.Check bound).1 = listOrNil members ∧
    ErrList.Dto members = some (failing.map (fun p => [("#" ++ toString p.1, p.2.fmtV)])) ∧
    (∀ e0 e1 e2, elementOutcomes c.Constraint v.items bound = [e0, e1, e2] →
      e0 ≠ .nil → e1 = .nil → e2 ≠ .nil →
      ∃ el, (c.Check bound).1 = .ErrList el ∧
        (ErrList.Dto el).map (List.map (List.map Prod.fst)) = some [["#0"], ["#2"]]) := by
  intro bound failing members
  have hmem : bound.mem c.Value = v := by simp [bound, EachConstraint.SetValue]
  have hdef : bound.DefaultCheckSemantic = CheckSemanticAll := hsem
  have hcheck : (c.Check bound).1 = listOrNil members := by
    rw [EachConstraint_Check_fst, hdef, hmem]
    simp [members, failing]
  have hdto := Dto_of_tagged failing
  refine ⟨hcheck, hdto, ?_⟩
  intro e0 e1 e2 hout h0 h1 h2
  have hf : failing = [(0, e0), (2, e2)] := by
    simp [failing, hout, failingAt, List.enum, List.enumFrom_cons, h0, h1, h2]
  refine ⟨members, ?_, ?_⟩
  · rw [hcheck]
    simp [members, hf, listOrNil]
  · rw [hdto, hf]
    have e0' : "#" ++ toString 0 = "#0" := by decide
    have e2' : "#" ++ toString 2 = "#2" := by decide
    simp [e0', e2']

/-- C9 (counterexample). `Each(Range[LoginType](0, 30))` bound to `[]LoginType{3}` under the
all-failures default: the constraint passes on the only element, yet `Check` returns a list
whose member `#0` carries the error of the element's own `Validate`. -/
theorem Each_all_failures_counterexample :
    let s := State.init.setDefault CheckSemanticAll
    let c := Range (LoginType 0) (LoginType 30) s
    let e := Each testMethods [c.1] c.2
    let bound := e.1.SetValue (.slice [LoginType 3]) e.2
    (c.1.Check (c.1.SetValue (LoginType 3) bound)).1 = .nil ∧
    (e.1.Check bound).1
      = .ErrList [.ErrField "#0" (.ErrList [.New "recursive validation"])] ∧
    (e.1.Check bound).1 ≠ .nil := by
  refine ⟨rfl, rfl, ?_⟩
  show error.ErrList [.ErrField "#0" (.ErrList [.New "recursive validation"])] ≠ .nil
  simp

/-- C9 (witness). `Each(StrLen(2, 8))` bound to `["a", "ab", "c"]`: elements 0 and 2 fail. -/
theorem Each_all_failures_witness :
    let s := State.init.setDefault CheckSemanticAll
    let c := StrLen 2 8 s
    let e := Each noMethods [c.1] c.2
    let bound := e.1.SetValue (.slice [.str "a", .str "ab", .str "c"]) e.2
    s.DefaultCheckSemantic = CheckSemanticAll ∧
    ∃ el, (e.1.Check bound).1 = .ErrList el ∧
      (ErrList.Dto el).map (List.map (List.map Prod.fst)) = some [["#0"], ["#2"]] :=
  ⟨rfl,
   (Each_all_failures
      { Value := 5,
        Constraint := (Constraints noMethods CheckSemanticAll
          [(StrLen 2 8 (State.init.setDefault CheckSemanticAll)).1]
          (StrLen 2 8 (State.init.setDefault CheckSemanticAll)).2).1 }
      (.slice [.str "a", .str "ab", .str "c"])
      (Each noMethods [(StrLen 2 8 (State.init.setDefault CheckSemanticAll)).1]
        (StrLen 2 8 (State.init.setDefault CheckSemanticAll)).2).2 rfl).2.2
      (.ErrList [.New "must have 2 characters at least"]) .nil
      (.ErrList [.New "must have 2 characters at least"]) rfl (by simp) rfl (by simp)⟩

/-! ## C10: the package-level nodes of `str.go` are shared -/

/-- C10 (the code at the failing input). `a := Value("A", ContainsUpper())` passes when checked
at once, but after `b := Value("a", ContainsUpper())` has been built `a.Check()` reports that an
upper-case character is missing, although `"A"` contains one: both trees hold the one
package-level node, which `b` re-bound to `"a"`.  Likewise for `ContainsLower` and
`ContainsNumber`. -/
theorem ContainsUpper_shared (unicode : Unicode)
    (hU : unicode.IsUpper 'A' = true ∧ unicode.IsUpper 'a' = false)
    (hL : unicode.IsLower 'a' = true ∧ unicode.IsLower 'A' = false)
    (hN : unicode.IsNumber '1' = true ∧ unicode.IsNumber 'a' = false) :
    (let u := ContainsUpper unicode State.init
     let a := Value noMethods (.str "A") [u.1] u.2
     let u' := ContainsUpper unicode a.2
     let b := Value noMethods (.str "a") [u'.1] u'.2
     (a.1.Check a.2).1 = .nil ∧
     (a.1.Check b.2).1 = .New "must contain one upper case character at least") ∧
    (let l := ContainsLower unicode State.init
     let a := Value noMethods (.str "a") [l.1] l.2
     let l' := ContainsLower unicode a.2
     let b := Value noMethods (.str "A") [l'.1] l'.2
     (a.1.Check a.2).1 = .nil ∧
     (a.1.Check b.2).1 = .New "must contain one lower case character at least") ∧
    (let n := ContainsNumber unicode State.init
     let a := Value noMethods (.str "1") [n.1] n.2
     let n' := ContainsNumber unicode a.2
     let b := Value noMethods (.str "a") [n'.1] n'.2
     (a.1.Check a.2).1 = .nil ∧
     (a.1.Check b.2).1 = .New "must contain one number character at least") := by
  have d1 : ("A" : String).data = ['A'] := rfl
  have d2 : ("a" : String).data = ['a'] := rfl
  have d3 : ("1" : String).data = ['1'] := rfl
  refine ⟨?_, ?_, ?_⟩ <;>
  simp [ContainsUpper, ContainsLower, ContainsNumber, containsUpperConstraint,
    containsLowerConstraint, containsNumberConstraint, Value, Constraints,
    ValueConstraints.toCheckableValue, ValueConstraint.toCheckableValue,
    ContainsPredicateConstraint.toCheckableValue, ValueConstraints.SetValue,
    ValueConstraint.Check, ValueConstraints.Check, ContainsPredicateConstraint.SetValue,
    ContainsPredicateConstraint.Check, State.init, validateHook, Validatable, checkFirst,
    Val.toStr, d1, d2, d3, hU, hL, hN, State.alloc, State.write]

/-- C10 (witness). The ASCII tables, `x = "A"` and `y = "a"`. -/
theorem ContainsUpper_shared_witness :
    let u := ContainsUpper Unicode.ascii State.init
    let a := Value noMethods (.str "A") [u.1] u.2
    let u' := ContainsUpper Unicode.ascii a.2
    let b := Value noMethods (.str "a") [u'.1] u'.2
    (Unicode.ascii.IsUpper 'A' = true ∧ Unicode.ascii.IsUpper 'a' = false) ∧
    (a.1.Check a.2).1 = .nil ∧
    (a.1.Check b.2).1 = .New "must contain one upper case character at least" :=
  ⟨by decide,
   (ContainsUpper_shared Unicode.ascii (by decide) (by decide) (by decide)).1⟩

/-! ## C13, C14: the schema and the hook of the sequential combinator -/

theorem aggregate_eq (semantic : CheckSemantic) (outs : List error) :
    aggregate semantic outs =
      if semantic = CheckSemanticAll then listOrNil (failures outs) else firstFailure outs := by
  cases semantic <;> simp [aggregate]

theorem aggregate_eq_nil (semantic : CheckSemantic) (outs : List error)
    (h : ∀ e ∈ outs, e = .nil) : aggregate semantic outs = .nil := by
  rw [aggregate_eq, failures_eq_nil _ h, firstFailure_eq_nil _ h]
  simp [listOrNil]

theorem firstFailure_ne_nil (outs : List error) (h : ∃ e ∈ outs, e ≠ .nil) :
    firstFailure outs ≠ .nil := by
  induction outs with
  | nil => simp at h
  | cons e es ih =>
    by_cases he : e = .nil
    · simp only [firstFailure, he, ne_eq, not_true_eq_false, if_false]
      apply ih
      obtain ⟨x, hx, hne⟩ := h
      simp only [List.mem_cons] at hx
      rcases hx with rfl | hx
      · exact absurd he hne
      · exact ⟨x, hx, hne⟩
    · simp [firstFailure, he]

theorem failures_ne_nil (outs : List error) (h : ∃ e ∈ outs, e ≠ .nil) :
    failures outs ≠ [] := by
  obtain ⟨x, hx, hne⟩ := h
  intro hf
  have : x ∈ failures outs := by
    simp only [failures, List.mem_filter, decide_eq_true_eq]
    exact ⟨hx, hne⟩
  rw [hf] at this
  simp at this

theorem aggregate_ne_nil (semantic : CheckSemantic) (outs : List error)
    (h : ∃ e ∈ outs, e ≠ .nil) : aggregate semantic outs ≠ .nil := by
  cases semantic
  · exact firstFailure_ne_nil outs h
  · simp only [aggregate]
    intro hn
    exact failures_ne_nil outs h ((listOrNil_eq_nil_iff _).1 hn)

theorem map_toCheckable_Check (cons : List CheckableValue) :
    (cons.map (fun con => con.toCheckable)).map (fun con => con.Check)
      = cons.map (fun con => con.Check) := by
  simp [List.map_map, Function.comp_def]

/-- C13. Under each default semantic in force at `Check` time, `Schema(cs...).Check()` returns
the aggregate of the outcomes of the checks taken in construction order: the first non-nil
error under first-failure, the `ErrList` of all non-nil errors under all-failures, nil when no
check fails, and no field tag is added.  This is what the sequential combinator with that
semantic returns over the same children when its bound value has no `Validate` method (none in
the method set of its type, so that the type assertion to `Validatable` fails). -/
theorem Schema_refines_sequential (Validate : Methods) (cs : List Checkable)
    (cons : List CheckableValue) (s st : State) :
    ((Schema cs s).1.Check st).1
      = aggregate st.DefaultCheckSemantic (outcomes (cs.map (fun con => con.Check)) st) ∧
    ((∀ con ∈ cons, Preserves s.next con) → Validatable Validate (st.mem s.next) = none →
      ((Schema (cons.map (fun con => con.toCheckable)) s).1.Check st).1
        = ((Constraints Validate st.DefaultCheckSemantic cons s).1.Check st).1) := by
  have h1 : ∀ cs : List Checkable, ((Schema cs s).1.Check st).1
      = aggregate st.DefaultCheckSemantic (outcomes (cs.map (fun con => con.Check)) st) := by
    intro cs
    rw [aggregate_eq]
    exact SchemaConstraint_Check_fst { Constraints := cs } st
  refine ⟨h1 cs, ?_⟩
  intro hown hv
  rw [h1, map_toCheckable_Check, aggregate_eq]
  exact (ValueConstraints_Check_fst Validate
    { Value := s.next, Constraints := cons, Semantic := st.DefaultCheckSemantic } st hown
    (validateHook_of_none _ _ hv)).symm

/-- C13 (witness). The schema and the sequential combinator over `NotBlank()` and
`StrLen(8, 24)`, both bound to `"t"`, under the all-failures default. -/
theorem Schema_refines_sequential_witness :
    let s0 := State.init.setDefault CheckSemanticAll
    let c1 := NotBlank s0
    let c2 := StrLen 8 24 c1.2
    let st := c2.1.SetValue (.str "t") (c1.1.SetValue (.str "t") c2.2)
    ((Schema [c1.1.toCheckable, c2.1.toCheckable] c2.2).1.Check st).1
      = ((Constraints noMethods CheckSemanticAll [c1.1, c2.1] c2.2).1.Check st).1 ∧
    ((Schema [c1.1.toCheckable, c2.1.toCheckable] c2.2).1.Check st).1
      = .ErrList [.New "must have 8 characters at least"] :=
  ⟨(Schema_refines_sequential noMethods []
      [(NotBlank (State.init.setDefault CheckSemanticAll)).1,
       (StrLen 8 24 (NotBlank (State.init.setDefault CheckSemanticAll)).2).1]
      (StrLen 8 24 (NotBlank (State.init.setDefault CheckSemanticAll)).2).2 _).2
      (by
        intro con hcon
        simp only [List.mem_cons, List.mem_singleton, List.not_mem_nil, or_false] at hcon
        rcases hcon with rfl | rfl
        · exact NotBlankConstraint_preserves _ _ (by decide)
        · exact StrLenConstraint_preserves _ _ (by decide))
      rfl,
   rfl⟩

/-- C14. A sequential combinator bound to a value `v` with a `Validate` method, under either
semantic: when every child passes, `Check` returns what `v.Validate()` returns (its error, or
nil); when some child fails, `Check` returns the aggregate of the outcomes of the children alone
(the first error under first-failure, the list of the child errors under all-failures), and the
error of `v.Validate()` is neither returned nor appended. -/
theorem sequential_validates_after_children (Validate : Methods) (semantic : CheckSemantic)
    (cons : List CheckableValue) (v : Val) (s : State) (r : error)
    (hv : Validatable Validate v = some (some r))
    (hown : ∀ con ∈ cons, Preserves s.next con) :
    let n := Constraints Validate semantic cons s
    let bound := n.1.SetValue v n.2
    let outs := outcomes (cons.map (fun con => con.Check)) bound
    ((∀ e ∈ outs, e = .nil) → (n.1.Check bound).1 = r) ∧
    ((∃ e ∈ outs, e ≠ .nil) →
      (n.1.Check bound).1 = aggregate semantic outs ∧ aggregate semantic outs ≠ .nil) := by
  intro n bound outs
  let c : ValueConstraints := { Value := s.next, Constraints := cons, Semantic := semantic }
  have hb : bound.mem s.next = v := ValueConstraints_SetValue_mem c hown v _
  obtain ⟨hf, ha⟩ := ValueConstraints_children_mem c hown bound
  have hcheck : (n.1.Check bound).1 = (c.Check Validate bound).1 := rfl
  constructor
  · intro hpass
    rw [hcheck]
    unfold ValueConstraints.Check
    have h1 := checkFirst_fst (cons.map (fun con => con.Check)) bound
    have h2 := checkAll_fst (cons.map (fun con => con.Check)) [] bound
    rw [firstFailure_eq_nil _ hpass] at h1
    rw [failures_eq_nil _ hpass] at h2
    simp only [ne_eq, not_true_eq_false, if_false] at h1
    simp only [List.append_nil] at h2
    by_cases hsem : semantic = CheckSemanticAll
    · simp only [c, hsem, if_true, h2, List.isEmpty_nil, Bool.not_true, Bool.false_eq_true,
        if_false]
      have := ha []
      simp only [c, hsem] at this
      rw [this, hb]
      by_cases hr : r = .nil <;> simp [validateHook, hv, hr]
    · simp only [c, hsem, if_false, h1]
      have := hf
      simp only [c] at this
      rw [this, hb]
      by_cases hr : r = .nil <;> simp [validateHook, hv, hr]
  · intro hfail
    have hne := aggregate_ne_nil semantic outs hfail
    refine ⟨?_, hne⟩
    rw [hcheck, aggregate_eq]
    unfold ValueConstraints.Check
    by_cases hsem : semantic = CheckSemanticAll
    · have hfl := failures_ne_nil outs hfail
      simp only [c, hsem, if_true, checkAll_fst, List.nil_append]
      cases hl : failures (outcomes (cons.map (fun con => con.Check)) bound) with
      | nil => exact absurd hl hfl
      | cons e es => simp [listOrNil]
    · have hff := firstFailure_ne_nil outs hfail
      simp only [c, hsem, if_false, checkFirst_fst]
      simp [outs] at hff
      simp [hff]

/-- C14 (witness). `All(Range[LoginType](20, 30))` bound to `LoginType(22)`, on which the child
passes and `Validate` fails, and to `LoginType(3)`, on which both fail. -/
theorem sequential_validates_after_children_witness :
    let c := Range (LoginType 20) (LoginType 30) State.init
    let n := Constraints testMethods CheckSemanticAll [c.1] c.2
    Validatable testMethods (LoginType 22) = some (some (.New "recursive validation")) ∧
    Validatable testMethods (LoginType 3) = some (some (.New "recursive validation")) ∧
    (n.1.Check (n.1.SetValue (LoginType 22) n.2)).1 = .New "recursive validation" ∧
    (n.1.Check (n.1.SetValue (LoginType 3) n.2)).1
      = .ErrList [.New "is less than minimum 20"] :=
  have hown : ∀ con ∈ [(Range (LoginType 20) (LoginType 30) State.init).1],
      Preserves (Range (LoginType 20) (LoginType 30) State.init).2.next con := by
    intro con hcon
    simp only [List.mem_singleton] at hcon
    subst hcon
    exact RangeConstraint_preserves _ _ (by decide)
  ⟨rfl, rfl,
   (sequential_validates_after_children testMethods CheckSemanticAll
      [(Range (LoginType 20) (LoginType 30) State.init).1] (LoginType 22)
      (Range (LoginType 20) (LoginType 30) State.init).2 (.New "recursive validation") rfl
      hown).1 (by
        intro e he
        have : outcomes ([(Range (LoginType 20) (LoginType 30) State.init).1].map
            (fun con => con.Check))
            ((Constraints testMethods CheckSemanticAll
              [(Range (LoginType 20) (LoginType 30) State.init).1]
              (Range (LoginType 20) (LoginType 30) State.init).2).1.SetValue (LoginType 22)
              (Constraints testMethods CheckSemanticAll
              [(Range (LoginType 20) (LoginType 30) State.init).1]
              (Range (LoginType 20) (LoginType 30) State.init).2).2) = [.nil] := rfl
        rw [this] at he
        simpa using he),
   ((sequential_validates_after_children testMethods CheckSemanticAll
      [(Range (LoginType 20) (LoginType 30) State.init).1] (LoginType 3)
      (Range (LoginType 20) (LoginType 30) State.init).2 (.New "recursive validation") rfl
      hown).2 ⟨.New "is less than minimum 20", by
        have : outcomes ([(Range (LoginType 20) (LoginType 30) State.init).1].map
            (fun con => con.Check))
            ((Constraints testMethods CheckSemanticAll
              [(Range (LoginType 20) (LoginType 30) State.init).1]
              (Range (LoginType 20) (LoginType 30) State.init).2).1.SetValue (LoginType 3)
              (Constraints testMethods CheckSemanticAll
              [(Range (LoginType 20) (LoginType 30) State.init).1]
              (Range (LoginType 20) (LoginType 30) State.init).2).2)
            = [.New "is less than minimum 20"] := rfl
        rw [this]
        simp, by simp⟩).1.trans rfl⟩

/-! ## C15: the password scenario -/

/-- C15. Under the first-failure default, for every non-empty string `x` with fewer than 8
characters, `Value(x, NotBlank(), StrLen(8, 24), ContainsNumber()).Check()` returns the single,
untagged error `must have 8 characters at least` of the first failing rule. -/
theorem password_first_failure (Validate : Methods) (unicode : Unicode) (x : String)
    (s : State) (hsem : s.DefaultCheckSemantic = CheckSemanticFirst)
    (hne : x ≠ "") (hlen : x.length < 8) :
    let c1 := NotBlank s
    let c2 := StrLen 8 24 c1.2
    let c3 := ContainsNumber unicode c2.2
    let n := Value Validate (.str x) [c1.1, c2.1, c3.1] c3.2
    (n.1.Check n.2).1 = .New "must have 8 characters at least" := by
  intro c1 c2 c3 n
  have e1 : "must have " ++ toString (8 : Int) ++ " characters at least"
      = "must have 8 characters at least" := by decide
  have hl : (x.length : Int) < 8 := by omega
  have hl' : ¬ (x.length : Int) > 24 := by omega
  have a1 : ¬ s.next = s.next + 1 := by omega
  have a2 : ¬ s.next = s.next + 1 + 1 := by omega
  have a3 : ¬ s.next = s.next + 1 + 1 + 1 := by omega
  have a4 : ¬ s.next + 1 = s.next + 1 + 1 := by omega
  have a5 : ¬ s.next + 1 = s.next + 1 + 1 + 1 := by omega
  simp [n, c1, c2, c3, Value, Constraints, NotBlank, StrLen, ContainsNumber,
    containsNumberConstraint, ValueConstraints.toCheckableValue,
    ValueConstraint.toCheckableValue, NotBlankConstraint.toCheckableValue,
    StrLenConstraint.toCheckableValue, ContainsPredicateConstraint.toCheckableValue,
    ValueConstraints.SetValue, ValueConstraint.Check, ValueConstraints.Check,
    NotBlankConstraint.SetValue, NotBlankConstraint.Check, StrLenConstraint.SetValue,
    StrLenConstraint.Check, ContainsPredicateConstraint.SetValue, validateHook, Validatable,
    checkFirst, Val.toStr, utf8.RuneCountInString, hsem, hne, hl, hl', e1,
    a1, a2, a3, a4, a5]

/-- C15 (witness). The string `"t"` of the test. -/
theorem password_first_failure_witness :
    let c1 := NotBlank State.init
    let c2 := StrLen 8 24 c1.2
    let c3 := ContainsNumber Unicode.ascii c2.2
    let n := Value noMethods (.str "t") [c1.1, c2.1, c3.1] c3.2
    ("t" ≠ "" ∧ "t".length < 8) ∧
    (n.1.Check n.2).1 = .New "must have 8 characters at least" :=
  ⟨by decide,
   password_first_failure noMethods Unicode.ascii "t" State.init rfl (by decide)
     (by decide)⟩

/-! ## C16, C17: the tags scenario -/

theorem LenConstraint_preserves (c : LenConstraint) (a : Nat) (h : a ≠ c.Value) :
    Preserves a c.toCheckableValue := by
  constructor
  · intro v s
    simp [LenConstraint.toCheckableValue, LenConstraint.SetValue, h]
  · intro s
    simp only [LenConstraint.toCheckableValue, LenConstraint.Check]
    split
    · rfl
    · split_ifs <;> rfl

theorem LenConstraint_Check_snd (c : LenConstraint) (s : State) : (c.Check s).2 = s := by
  simp only [LenConstraint.Check]
  split
  · rfl
  · split_ifs <;> rfl

/-- The outcome of `Len(2, 12)` on a slice of `n` items. -/
theorem LenConstraint_Check_2_12 (a : Nat) (xs : List Val) (s : State)
    (hm : s.mem a = .slice xs) :
    ((LenConstraint.mk a 2 12).Check s).1 = lenOutcome xs.length := by
  have e1 : "must have " ++ toString (2 : Int) ++ " items at least"
      = "must have 2 items at least" := by decide
  have e2 : "must have " ++ toString (12 : Int) ++ " items at most"
      = "must have 12 items at most" := by decide
  simp only [LenConstraint.Check, hm, Val.len?, e1, e2, lenOutcome]
  split_ifs <;> first | rfl | omega

/-- The outcome, on a string element, of the child that `Each(NotBlank(), StrLen(2, 8))`
re-binds when it was built under the all-failures default. -/
theorem Each_NotBlank_StrLen_child (Validate : Methods) (a1 a2 a3 : Nat) (h13 : a3 ≠ a1)
    (h23 : a3 ≠ a2) (h12 : a2 ≠ a1) (x : String) (s : State) :
    let child := ValueConstraints.toCheckableValue Validate
      { Value := a3,
        Constraints := [NotBlankConstraint.toCheckableValue ⟨a1⟩,
          StrLenConstraint.toCheckableValue ⟨a2, 2, 8⟩],
        Semantic := CheckSemanticAll }
    (child.Check (child.SetValue (.str x) s)).1 = tagOutcome x := by
  intro child
  unfold tagOutcome
  have hown : ∀ con ∈ [NotBlankConstraint.toCheckableValue ⟨a1⟩,
      StrLenConstraint.toCheckableValue ⟨a2, 2, 8⟩], Preserves a3 con := by
    intro con hcon
    simp only [List.mem_cons, List.mem_singleton, List.not_mem_nil, or_false] at hcon
    rcases hcon with rfl | rfl
    · exact NotBlankConstraint_preserves _ _ h13
    · exact StrLenConstraint_preserves _ _ h23
  have h := ValueConstraints_Check_fst Validate
    { Value := a3,
      Constraints := [NotBlankConstraint.toCheckableValue ⟨a1⟩,
        StrLenConstraint.toCheckableValue ⟨a2, 2, 8⟩],
      Semantic := CheckSemanticAll } (child.SetValue (.str x) s) hown
    (by simp [child, ValueConstraints.toCheckableValue, ValueConstraints.SetValue,
          StrLenConstraint.toCheckableValue, StrLenConstraint.SetValue,
          NotBlankConstraint.toCheckableValue, NotBlankConstraint.SetValue, h13, h23,
          validateHook, Validatable])
  have hm2 : (child.SetValue (.str x) s).mem a2 = .str x := by
    simp [child, ValueConstraints.toCheckableValue, ValueConstraints.SetValue,
      StrLenConstraint.toCheckableValue, StrLenConstraint.SetValue,
      NotBlankConstraint.toCheckableValue, NotBlankConstraint.SetValue]
  have hm1 : (child.SetValue (.str x) s).mem a1 = .str x := by
    simp [child, ValueConstraints.toCheckableValue, ValueConstraints.SetValue,
      StrLenConstraint.toCheckableValue, StrLenConstraint.SetValue,
      NotBlankConstraint.toCheckableValue, NotBlankConstraint.SetValue, h12.symm]
  have hs := StrLenConstraint_Check_2_8 a2 x (child.SetValue (.str x) s) hm2
  have hnb : ∀ st : State, st.mem a1 = .str x →
      NotBlankConstraint.Check ⟨a1⟩ st
        = (if x = "" then .New "cannot be blank" else .nil, st) := by
    intro st hst
    simp only [NotBlankConstraint.Check, hst, Val.toStr, notBlankError]
    split <;> rfl
  show (ValueConstraints.Check Validate _ _).1 = _
  rw [h]
  simp only [List.map_cons, List.map_nil, outcomes, StrLenConstraint.toCheckableValue,
    NotBlankConstraint.toCheckableValue, hnb _ hm1, hs, if_true]
  by_cases hx : x = ""
  · subst hx
    simp [failures, listOrNil]
  · have hpos : 0 < x.length := by
      rcases x with ⟨l⟩
      cases l with
      | nil => exact absurd rfl hx
      | cons c l => simp [String.length]
    by_cases hlt : x.length < 2
    · have : ¬ (2 ≤ x.length ∧ x.length ≤ 8) := by omega
      have h8 : ¬ 8 < x.length := by omega
      have hlt' : (x.length : Int) < 2 := by omega
      simp [hx, hlt', this, h8, failures, listOrNil]
    · by_cases hgt : 8 < x.length
      · have : ¬ (2 ≤ x.length ∧ x.length ≤ 8) := by omega
        have hlt' : ¬ (x.length : Int) < 2 := by omega
        have hgt' : (x.length : Int) > 8 := by omega
        simp [hx, hlt', hgt', hgt, this, failures, listOrNil]
      · have : (2 ≤ x.length ∧ x.length ≤ 8) := by omega
        have hlt' : ¬ (x.length : Int) < 2 := by omega
        have hgt' : ¬ (x.length : Int) > 8 := by omega
        simp [hx, hlt', hgt', this, failures, listOrNil]

/-- The outcome of the tree `Field("tags", l, Len(2, 12), Each(NotBlank(), StrLen(2, 8)))` built
and checked under the all-failures default. -/
theorem tags_tree_Check (Validate : Methods) (l : List String) (s : State)
    (hsem : s.DefaultCheckSemantic = CheckSemanticAll) :
    let c0 := Len 2 12 s
    let c1 := NotBlank c0.2
    let c2 := StrLen 2 8 c1.2
    let e := Each Validate [c1.1, c2.1] c2.2
    let f := Field Validate "tags" (.slice (l.map Val.str)) [c0.1, e.1] e.2
    let inner := listOrNil (failures [lenOutcome l.length,
      listOrNil ((failingAt (l.map tagOutcome)).map
        (fun p => FieldError ("#" ++ toString p.1) (.ErrList [p.2])))])
    (f.1.Check f.2).1 = if inner ≠ .nil then FieldError "tags" inner else .nil := by
  intro c0 c1 c2 e f inner
  let len : LenConstraint := { Value := s.next, Min := 2, Max := 12 }
  let child : CheckableValue := ValueConstraints.toCheckableValue Validate
    { Value := s.next + 3,
      Constraints := [NotBlankConstraint.toCheckableValue ⟨s.next + 1⟩,
        StrLenConstraint.toCheckableValue ⟨s.next + 2, 2, 8⟩],
      Semantic := CheckSemanticAll }
  let each : EachConstraint := { Value := s.next + 4, Constraint := child }
  have hc0 : c0.1 = len.toCheckableValue := rfl
  have he1 : e.1 = each.toCheckableValue := by
    show (Each Validate _ _).1 = _
    simp only [Each, Constraints, each, child]
    have : c2.2.DefaultCheckSemantic = CheckSemanticAll := hsem
    rw [this]
    rfl
  have he2 : e.2.next = s.next + 5 := rfl
  have hdefe : e.2.DefaultCheckSemantic = CheckSemanticAll := hsem
  have hpres : ∀ con ∈ [c0.1, e.1], Preserves e.2.next con := by
    intro con hcon
    simp only [List.mem_cons, List.mem_singleton, List.not_mem_nil, or_false] at hcon
    rcases hcon with rfl | rfl
    · rw [hc0, he2]
      exact LenConstraint_preserves _ _ (by simp [len])
    · rw [he1, he2]
      refine EachConstraint_preserves each _ (by simp [each]) ?_
      refine ValueConstraints_preserves Validate _ _ (by simp) ?_
      intro con hcon
      simp only [List.mem_cons, List.mem_singleton, List.not_mem_nil, or_false] at hcon
      rcases hcon with rfl | rfl
      · exact NotBlankConstraint_preserves _ _ (by simp)
      · exact StrLenConstraint_preserves _ _ (by simp)
  have hv : validateHook Validate (.slice (l.map Val.str)) = none := by
    simp [validateHook, Validatable]
  have hval := Value_Check_fst Validate [c0.1, e.1] (.slice (l.map Val.str)) e.2 hv hpres
  have hf2 : f.2 = (Value Validate (.slice (l.map Val.str)) [c0.1, e.1] e.2).2 := rfl
  have hdef : f.2.DefaultCheckSemantic = CheckSemanticAll := hsem
  have hmem4 : f.2.mem (s.next + 4) = .slice (l.map Val.str) := by
    simp [hf2, Value, Constraints, ValueConstraints.toCheckableValue, ValueConstraints.SetValue,
      he1, hc0, EachConstraint.toCheckableValue, EachConstraint.SetValue, each, he2,
      LenConstraint.toCheckableValue, LenConstraint.SetValue, len]
  have hmem0 : f.2.mem s.next = .slice (l.map Val.str) := by
    simp [hf2, Value, Constraints, ValueConstraints.toCheckableValue, ValueConstraints.SetValue,
      he1, hc0, EachConstraint.toCheckableValue, EachConstraint.SetValue, each, he2,
      LenConstraint.toCheckableValue, LenConstraint.SetValue, len]
  have hout : elementOutcomes child (l.map Val.str) f.2
      = (l.map Val.str).map (fun v => tagOutcome v.toStr) := by
    apply elementOutcomes_eq_map
    intro v hv st
    obtain ⟨x, _, rfl⟩ := List.mem_map.1 hv
    exact Each_NotBlank_StrLen_child Validate (s.next + 1) (s.next + 2) (s.next + 3)
      (by simp) (by simp) (by simp) x st
  have hout' : elementOutcomes child (l.map Val.str) f.2 = l.map tagOutcome := by
    rw [hout, List.map_map]
    rfl
  have heach := EachConstraint_Check_fst each f.2
  rw [hdef] at heach
  simp only [each, hmem4, Val.items, if_true] at heach
  rw [hout'] at heach
  have hlen := LenConstraint_Check_2_12 s.next (l.map Val.str) f.2 hmem0
  simp only [List.length_map] at hlen
  have hlen2 := LenConstraint_Check_snd len f.2
  have hR := hval
  rw [← hf2] at hR
  have h0 : (c0.1.Check f.2) = len.Check f.2 := rfl
  have h1 : (e.1.Check f.2).1 = (each.Check f.2).1 := by rw [he1]; rfl
  simp only [List.map_cons, List.map_nil, outcomes, hdefe, if_true, h0, hlen2, h1] at hR
  rw [show (len.Check f.2).1 = lenOutcome l.length from hlen, heach] at hR
  show (FieldConstraint.Check _ f.2).1 = _
  simp only [FieldConstraint.Check]
  rw [hR]
  split <;> rfl

theorem tagOutcome_eq_nil (x : String) (h : 2 ≤ x.length ∧ x.length ≤ 8) :
    tagOutcome x = .nil := by
  simp [tagOutcome, h]

/-- C16 (amended). Under the all-failures default,
`Field("tags", ["tag1", "dd", x], Len(2, 12), Each(NotBlank(), StrLen(2, 8))).Check()` returns
nil when the third element `x` has between 2 and 8 characters, as `"loooong"` with its 7
characters has; when `x` has more than 8 characters it returns the error field-tagged `tags`
whose nested outcome is the list holding the list of the each wrapper, whose only member is
tagged `#2` and carries the length violation, and which renders as
`tags: #2: must have 8 characters at most`.  The second element `"dd"` produces no violation. -/
theorem tags_scenario (Validate : Methods) (s : State)
    (hsem : s.DefaultCheckSemantic = CheckSemanticAll) (x : String) :
    let c0 := Len 2 12 s
    let c1 := NotBlank c0.2
    let c2 := StrLen 2 8 c1.2
    let e := Each Validate [c1.1, c2.1] c2.2
    let f := Field Validate "tags" (.slice (["tag1", "dd", x].map Val.str)) [c0.1, e.1] e.2
    ("loooong".length = 7) ∧
    (2 ≤ x.length ∧ x.length ≤ 8 → (f.1.Check f.2).1 = .nil) ∧
    (8 < x.length →
      (f.1.Check f.2).1 = .ErrField "tags" (.ErrList [.ErrList [.ErrField "#2"
        (.ErrList [.ErrList [.New "must have 8 characters at most"]])]]) ∧
      (f.1.Check f.2).1.fmtV = "tags: #2: must have 8 characters at most") := by
  intro c0 c1 c2 e f
  have h := tags_tree_Check Validate ["tag1", "dd", x] s hsem
  have t1 : tagOutcome "tag1" = .nil := by decide
  have t2 : tagOutcome "dd" = .nil := by decide
  have hl : lenOutcome 3 = .nil := by decide
  have e2 : "#" ++ toString 2 = "#2" := by decide
  refine ⟨by decide, ?_, ?_⟩
  · intro hx
    refine h.trans ?_
    simp [hl, t1, t2, tagOutcome_eq_nil x hx, failingAt, List.enum, List.enumFrom_cons,
      failures, listOrNil]
  · intro hx
    have hx' : ¬ (2 ≤ x.length ∧ x.length ≤ 8) := by omega
    have ht : tagOutcome x = .ErrList [.New "must have 8 characters at most"] := by
      simp [tagOutcome, hx', hx]
    have hres : (f.1.Check f.2).1 = .ErrField "tags" (.ErrList [.ErrList [.ErrField "#2"
        (.ErrList [.ErrList [.New "must have 8 characters at most"]])]]) := by
      refine h.trans ?_
      simp [hl, t1, t2, ht, failingAt, List.enum, List.enumFrom_cons, failures, listOrNil,
        FieldError, e2]
    refine ⟨hres, ?_⟩
    rw [hres]
    decide

/-- C16 (counterexample). At the input of the scenario, with `"loooong"` as third element, the
tree built and checked under the all-failures default returns nil: there is no `#2`-tagged
violation. -/
theorem tags_scenario_counterexample :
    let s := State.init.setDefault CheckSemanticAll
    let c0 := Len 2 12 s
    let c1 := NotBlank c0.2
    let c2 := StrLen 2 8 c1.2
    let e := Each noMethods [c1.1, c2.1] c2.2
    let f := Field noMethods "tags" (.slice [.str "tag1", .str "dd", .str "loooong"])
      [c0.1, e.1] e.2
    (f.1.Check f.2).1 = .nil ∧ "loooong".length = 7 :=
  ⟨rfl, by decide⟩

/-- C16 (witness). The third elements `"loooong"` and `"looooooong"`. -/
theorem tags_scenario_witness :
    let s := State.init.setDefault CheckSemanticAll
    let c0 := Len 2 12 s
    let c1 := NotBlank c0.2
    let c2 := StrLen 2 8 c1.2
    let e := Each noMethods [c1.1, c2.1] c2.2
    let f := Field noMethods "tags" (.slice (["tag1", "dd", "loooong"].map Val.str))
      [c0.1, e.1] e.2
    let f' := Field noMethods "tags" (.slice (["tag1", "dd", "looooooong"].map Val.str))
      [c0.1, e.1] e.2
    (2 ≤ "loooong".length ∧ "loooong".length ≤ 8) ∧ 8 < "looooooong".length ∧
    (f.1.Check f.2).1 = .nil ∧
    (f'.1.Check f'.2).1.fmtV = "tags: #2: must have 8 characters at most" :=
  ⟨by decide, by decide,
   (tags_scenario noMethods (State.init.setDefault CheckSemanticAll) rfl "loooong").2.1
     (by decide),
   ((tags_scenario noMethods (State.init.setDefault CheckSemanticAll) rfl "looooooong").2.2
     (by decide)).2⟩

/-- C17. Under the all-failures default, for every list of strings with 2 to 12 elements, each of
them non-empty with 2 to 8 characters,
`Field("tags", list, Len(2, 12), Each(NotBlank(), StrLen(2, 8))).Check()` returns nil. -/
theorem tags_valid_returns_nil (Validate : Methods) (l : List String) (s : State)
    (hsem : s.DefaultCheckSemantic = CheckSemanticAll)
    (hlen : 2 ≤ l.length ∧ l.length ≤ 12)
    (hel : ∀ x ∈ l, x ≠ "" ∧ 2 ≤ x.length ∧ x.length ≤ 8) :
    let c0 := Len 2 12 s
    let c1 := NotBlank c0.2
    let c2 := StrLen 2 8 c1.2
    let e := Each Validate [c1.1, c2.1] c2.2
    let f := Field Validate "tags" (.slice (l.map Val.str)) [c0.1, e.1] e.2
    (f.1.Check f.2).1 = .nil := by
  intro c0 c1 c2 e f
  have h := tags_tree_Check Validate l s hsem
  have hl : lenOutcome l.length = .nil := by
    have h1 : ¬ l.length < 2 := by omega
    have h2 : ¬ l.length > 12 := by omega
    simp [lenOutcome, h1, h2]
  have hf : failingAt (l.map tagOutcome) = [] := by
    apply failingAt_eq_nil
    intro e he
    obtain ⟨x, hx, rfl⟩ := List.mem_map.1 he
    exact tagOutcome_eq_nil x (hel x hx).2
  refine h.trans ?_
  simp [hl, hf, failures, listOrNil]

/-- C17 (witness). The list `["tag1", "dd", "loooong"]` of the test. -/
theorem tags_valid_returns_nil_witness :
    let s := State.init.setDefault CheckSemanticAll
    let c0 := Len 2 12 s
    let c1 := NotBlank c0.2
    let c2 := StrLen 2 8 c1.2
    let e := Each noMethods [c1.1, c2.1] c2.2
    let f := Field noMethods "tags" (.slice (["tag1", "dd", "loooong"].map Val.str))
      [c0.1, e.1] e.2
    (∀ x ∈ ["tag1", "dd", "loooong"], x ≠ "" ∧ 2 ≤ x.length ∧ x.length ≤ 8) ∧
    (f.1.Check f.2).1 = .nil :=
  ⟨by decide,
   tags_valid_returns_nil noMethods ["tag1", "dd", "loooong"]
     (State.init.setDefault CheckSemanticAll) rfl (by decide) (by decide)⟩

/-! ## C18: a semantic governs the direct children only -/

theorem All_over_First (Validate : Methods) (a b c : CheckableValue) (a1 a2 : Nat)
    (st : State) (ha : (a.Check st).1 ≠ .nil) (hc : (c.Check (a.Check st).2).1 ≠ .nil) :
    (ValueConstraints.Check Validate
      { Value := a2,
        Constraints := [ValueConstraints.toCheckableValue Validate
          { Value := a1, Constraints := [a, b], Semantic := CheckSemanticFirst }, c],
        Semantic := CheckSemanticAll } st).1
      = .ErrList [(a.Check st).1, (c.Check (a.Check st).2).1] := by
  simp [ValueConstraints.toCheckableValue, ValueConstraints.Check, checkAll, checkFirst, ha, hc]

theorem First_over_All (Validate : Methods) (a b c : CheckableValue) (a1 a2 : Nat)
    (st : State) (ha : (a.Check st).1 ≠ .nil) (hb : (b.Check (a.Check st).2).1 ≠ .nil) :
    ValueConstraints.Check Validate
      { Value := a2,
        Constraints := [ValueConstraints.toCheckableValue Validate
          { Value := a1, Constraints := [a, b], Semantic := CheckSemanticAll }, c],
        Semantic := CheckSemanticFirst } st
      = (.ErrList [(a.Check st).1, (b.Check (a.Check st).2).1], (b.Check (a.Check st).2).2) := by
  simp [ValueConstraints.toCheckableValue, ValueConstraints.Check, checkAll, checkFirst, ha, hb]

/-- C18. For constraints `a`, `b`, `c` that fail when checked in their turn on the bound value:
`All(First(a, b), c)` returns the list of the errors of `a` and `c`, the nested first-failure
combinator stopping after `a`; `First(All(a, b), c)` returns the list of the errors of `a` and
`b`, the nested all-failures combinator collecting both, and `c` is not checked. -/
theorem semantic_governs_direct_children (Validate : Methods) (a b c : CheckableValue)
    (v : Val) (s : State) :
    (let inner := First Validate [a, b] s
     let outer := All Validate [inner.1, c] inner.2
     let bound := outer.1.SetValue v outer.2
     (a.Check bound).1 ≠ .nil → (c.Check (a.Check bound).2).1 ≠ .nil →
      (outer.1.Check bound).1
        = .ErrList [(a.Check bound).1, (c.Check (a.Check bound).2).1]) ∧
    (let inner := All Validate [a, b] s
     let outer := First Validate [inner.1, c] inner.2
     let bound := outer.1.SetValue v outer.2
     (a.Check bound).1 ≠ .nil → (b.Check (a.Check bound).2).1 ≠ .nil →
      outer.1.Check bound
        = (.ErrList [(a.Check bound).1, (b.Check (a.Check bound).2).1],
            (b.Check (a.Check bound).2).2)) := by
  constructor
  · intro inner outer bound ha hc
    exact All_over_First Validate a b c _ _ bound ha hc
  · intro inner outer bound ha hb
    exact First_over_All Validate a b c _ _ bound ha hb

/-- C18 (witness). `NotBlank()`, `StrLen(8, 24)` and a digit predicate, bound to `""`, on which
all three fail. -/
theorem semantic_governs_direct_children_witness :
    let a := NotBlank State.init
    let b := StrLen 8 24 a.2
    let c := ContainsPredicate Char.isDigit "must contain one number character at least" b.2
    let inner := First noMethods [a.1, b.1] c.2
    let outer := All noMethods [inner.1, c.1] inner.2
    let inner' := All noMethods [a.1, b.1] c.2
    let outer' := First noMethods [inner'.1, c.1] inner'.2
    (outer.1.Check (outer.1.SetValue (.str "") outer.2)).1
      = .ErrList [.New "cannot be blank",
          .New "must contain one number character at least"] ∧
    (outer'.1.Check (outer'.1.SetValue (.str "") outer'.2)).1
      = .ErrList [.New "cannot be blank", .New "must have 8 characters at least"] :=
  ⟨((semantic_governs_direct_children noMethods (NotBlank State.init).1
      (StrLen 8 24 (NotBlank State.init).2).1
      (ContainsPredicate Char.isDigit "must contain one number character at least"
        (StrLen 8 24 (NotBlank State.init).2).2).1 (.str "")
      (ContainsPredicate Char.isDigit "must contain one number character at least"
        (StrLen 8 24 (NotBlank State.init).2).2).2).1
      (by
        show error.New "cannot be blank" ≠ .nil
        simp)
      (by
        show error.New "must contain one number character at least" ≠ .nil
        simp)).trans rfl,
   congrArg Prod.fst (((semantic_governs_direct_children noMethods (NotBlank State.init).1
      (StrLen 8 24 (NotBlank State.init).2).1
      (ContainsPredicate Char.isDigit "must contain one number character at least"
        (StrLen 8 24 (NotBlank State.init).2).2).1 (.str "")
      (ContainsPredicate Char.isDigit "must contain one number character at least"
        (StrLen 8 24 (NotBlank State.init).2).2).2).2
      (by
        show error.New "cannot be blank" ≠ .nil
        simp)
      (by
        show error.New "must have 8 characters at least" ≠ .nil
        simp)).trans rfl)⟩

/-! ## C19: when the default semantic is read -/

/-- C19 (amended). A tree `Value(v, a, b)` built while the default is first-failure, for a value
`v` without failing `Validate` (its type has no such method in its method set, or the method
returns nil) and a constraint `a` that fails on it, returns the error of `a`
alone, not a list, when it is checked after the default was changed to all-failures: the
semantic of the sequential combinator was fixed at construction.  An each node built under
first-failure and checked in a state whose default is all-failures returns the all-failures
list, with one member tagged `#k` for every element `k` on which its child fails (nil if there
is none), whatever combinator encloses it: the each wrapper reads the default when it is
checked. -/
theorem default_semantic_timing (Validate : Methods) (a b : CheckableValue)
    (cons : List CheckableValue) (v w : Val) (s st : State)
    (hsem : s.DefaultCheckSemantic = CheckSemanticFirst)
    (hv : NoFailingValidate Validate v) :
    (let n := Value Validate v [a, b] s
     let later := n.2.setDefault CheckSemanticAll
     (a.Check later).1 ≠ .nil → (n.1.Check later).1 = (a.Check later).1) ∧
    (let n := Each Validate cons s
     let child := (Constraints Validate CheckSemanticFirst cons s).1
     st.DefaultCheckSemantic = CheckSemanticAll → st.mem (s.next + 1) = w →
      (n.1.Check st).1 = listOrNil ((failingAt (elementOutcomes child w.items st)).map
        (fun p => FieldError ("#" ++ toString p.1) (.ErrList [p.2])))) := by
  have hv := validateHook_of_noFailing _ _ hv
  constructor
  · intro n later ha
    have hm : later.mem
        ((ValueConstraints.SetValue
          { Value := s.next, Constraints := [a, b], Semantic := s.DefaultCheckSemantic } v
          s.alloc.2).next) = v := by
      simp [later, n, Value, Constraints, ValueConstraints.toCheckableValue, State.setDefault]
    rw [hsem] at hm
    show (ValueConstraint.Check Validate _ later).1 = _
    simp only [ValueConstraint.Check, Constraints, ValueConstraints.toCheckableValue,
      ValueConstraints.Check, hsem, State.alloc_fst]
    simp [checkFirst, ha, hm, hv]
  · intro n child hdef hmem
    have h := EachConstraint_Check_fst { Value := s.next + 1, Constraint := child } st
    simp only [hdef, if_true, hmem] at h
    have hn : n.1 = EachConstraint.toCheckableValue
        { Value := s.next + 1, Constraint := child } := by
      show (Each Validate cons s).1 = _
      simp only [Each, Constraints, hsem, child]
      rfl
    rw [hn]
    exact h

/-- C19 (counterexample). `Value(LoginType(3), Range(20, 30), Range(40, 50))` built under
first-failure and checked after the default became all-failures: both constraints fail on the
value, yet `Check` returns the error of `Validate`, not the error of the first constraint. -/
theorem default_semantic_timing_counterexample :
    let a := Range (LoginType 20) (LoginType 30) State.init
    let b := Range (LoginType 40) (LoginType 50) a.2
    let n := Value testMethods (LoginType 3) [a.1, b.1] b.2
    let later := n.2.setDefault CheckSemanticAll
    (a.1.Check later).1 = .New "is less than minimum 20" ∧
    (b.1.Check later).1 = .New "is less than minimum 40" ∧
    (n.1.Check later).1 = .New "recursive validation" ∧
    (n.1.Check later).1 ≠ (a.1.Check later).1 := by
  refine ⟨rfl, rfl, rfl, ?_⟩
  show error.New "recursive validation" ≠ error.New "is less than minimum 20"
  simp

/-- C19 (witness). `Value("", NotBlank(), StrLen(8, 24))` and `Each(StrLen(2, 8))` bound to
`["a", "ab", "c"]`, built under first-failure and checked under all-failures. -/
theorem default_semantic_timing_witness :
    let a := NotBlank State.init
    let b := StrLen 8 24 a.2
    let n := Value noMethods (.str "") [a.1, b.1] b.2
    let later := n.2.setDefault CheckSemanticAll
    let c := StrLen 2 8 State.init
    let e := Each noMethods [c.1] c.2
    let st := (e.1.SetValue (.slice [.str "a", .str "ab", .str "c"]) e.2).setDefault
      CheckSemanticAll
    State.init.DefaultCheckSemantic = CheckSemanticFirst ∧
    (n.1.Check later).1 = .New "cannot be blank" ∧
    (e.1.Check st).1 = .ErrList
      [.ErrField "#0" (.ErrList [.New "must have 2 characters at least"]),
       .ErrField "#2" (.ErrList [.New "must have 2 characters at least"])] :=
  ⟨rfl,
   ((default_semantic_timing noMethods (NotBlank State.init).1
      (StrLen 8 24 (NotBlank State.init).2).1 [] (.str "") (.str "")
      (StrLen 8 24 (NotBlank State.init).2).2 State.init rfl (Or.inl rfl)).1
      (by
        show error.New "cannot be blank" ≠ .nil
        simp)).trans rfl,
   ((default_semantic_timing noMethods (NotBlank State.init).1 (NotBlank State.init).1
      [(StrLen 2 8 State.init).1] (.str "") (.slice [.str "a", .str "ab", .str "c"])
      (StrLen 2 8 State.init).2 _ rfl (Or.inl rfl)).2 rfl rfl).trans rfl⟩

/-! ## C20: the range constraint -/

theorem Val_not_lt_iff_le (a b : Val) (h : Val.sameOrdered a b) :
    Val.lt a b = false ↔ Val.le b a := by
  cases a <;> cases b <;> simp only [Val.sameOrdered] at h
  case int.int x y => simp [Val.lt, Val.le]
  case str.str x y => simp [Val.lt, Val.le]
  case named.named t a u b =>
    simp only [Val.lt, Val.le]
    exact Val_not_lt_iff_le a b h.2

theorem RangeConstraint_Check_eq_nil (c : RangeConstraint) (s : State) :
    (c.Check s).1 = .nil ↔ Val.lt c.Max (s.mem c.Value) = false ∧
      Val.lt (s.mem c.Value) c.Min = false := by
  simp only [RangeConstraint.Check]
  by_cases h1 : Val.lt c.Max (s.mem c.Value) = true
  · simp [h1]
  · by_cases h2 : Val.lt (s.mem c.Value) c.Min = true
    · simp [h1, h2]
    · simp [h1, h2]

theorem aggregate_singleton_eq_nil (semantic : CheckSemantic) (e : error) :
    aggregate semantic [e] = .nil ↔ e = .nil := by
  by_cases he : e = .nil <;> cases semantic <;>
    simp [aggregate, firstFailure, failures, listOrNil, he]

/-- C20 (amended). For all values `min`, `max` and `v`, where `v` has no failing `Validate`, and
under either default semantic, `Value(v, Range(min, max)).Check()` returns an error if and only
if `v < min` or `v > max`; when the three values belong to one ordered type of integers or
strings it returns nil exactly when `min <= v <= max`. -/
theorem Range_rejects_iff_outside (Validate : Methods) (min max v : Val) (s : State)
    (hv : validateHook Validate v = none) :
    let c := Range min max s
    let n := Value Validate v [c.1] c.2
    ((n.1.Check n.2).1 ≠ .nil ↔ (Val.lt v min = true ∨ Val.lt max v = true)) ∧
    (Val.sameOrdered v min → Val.sameOrdered max v →
      ((n.1.Check n.2).1 = .nil ↔ Val.le min v ∧ Val.le v max)) := by
  intro c n
  let r : RangeConstraint := { Value := s.next, Min := min, Max := max }
  have hc1 : c.1 = r.toCheckableValue := rfl
  have hown : ∀ con ∈ [c.1], Preserves c.2.next con := by
    intro con hcon
    simp only [List.mem_singleton] at hcon
    subst hcon
    exact RangeConstraint_preserves r _ (by simp [c, Range, r])
  have h := Value_Check_fst Validate [c.1] v c.2 hv hown
  rw [← aggregate_eq] at h
  have hmem : n.2.mem s.next = v := by
    simp [n, Value, Constraints, ValueConstraints.toCheckableValue, ValueConstraints.SetValue,
      hc1, RangeConstraint.toCheckableValue, RangeConstraint.SetValue, r, c, Range]
  have hnil : (n.1.Check n.2).1 = .nil ↔ Val.lt max v = false ∧ Val.lt v min = false := by
    show ((Value Validate v [c.1] c.2).1.Check (Value Validate v [c.1] c.2).2).1 = .nil ↔ _
    rw [h]
    simp only [List.map_cons, List.map_nil, outcomes]
    rw [aggregate_singleton_eq_nil]
    have := RangeConstraint_Check_eq_nil r n.2
    simp only [r, hmem] at this
    exact this
  constructor
  · rw [Ne, hnil]
    cases Val.lt v min <;> cases Val.lt max v <;> simp
  · intro h1 h2
    rw [hnil, Val_not_lt_iff_le max v h2, Val_not_lt_iff_le v min h1]
    exact And.comm

/-- C20 (counterexample). `Value(LoginType(22), Range[LoginType](20, 30))`: the value lies
between the bounds, yet `Check` returns the error of the value's own `Validate`. -/
theorem Range_rejects_iff_outside_counterexample :
    let c := Range (LoginType 20) (LoginType 30) State.init
    let n := Value testMethods (LoginType 22) [c.1] c.2
    Val.lt (LoginType 22) (LoginType 20) = false ∧
    Val.lt (LoginType 30) (LoginType 22) = false ∧
    (n.1.Check n.2).1 = .New "recursive validation" ∧ (n.1.Check n.2).1 ≠ .nil := by
  refine ⟨rfl, rfl, rfl, ?_⟩
  show error.New "recursive validation" ≠ .nil
  simp

/-- C20 (witness). `Range(2, 20)` accepts 19 and rejects 21, as in the test. -/
theorem Range_rejects_iff_outside_witness :
    let c := Range (.int 2) (.int 20) State.init
    let n := Value noMethods (.int 19) [c.1] c.2
    let n' := Value noMethods (.int 21) [c.1] c.2
    validateHook noMethods (.int 19) = none ∧
    (n.1.Check n.2).1 = .nil ∧ (n'.1.Check n'.2).1 ≠ .nil :=
  ⟨rfl,
   ((Range_rejects_iff_outside noMethods (.int 2) (.int 20) (.int 19) State.init rfl).2
      trivial trivial).2
      ⟨show (2 : Int) ≤ 19 by decide, show (19 : Int) ≤ 20 by decide⟩,
   (Range_rejects_iff_outside noMethods (.int 2) (.int 20) (.int 21) State.init rfl).1.2
      (Or.inr rfl)⟩

/-! ## C21: `Each` under the first-failure default -/

theorem EachConstraint_checkFirst_nil (con : CheckableValue) (i : Nat) (items : List Val)
    (s : State) (h : ∀ e ∈ elementOutcomes con items s, e = .nil) :
    (EachConstraint.checkFirst con i items s).1 = none := by
  induction items generalizing i s with
  | nil => rfl
  | cons item rest ih =>
    have h0 : (con.Check (con.SetValue item s)).1 = .nil :=
      h _ (by simp [elementOutcomes])
    have hr : ∀ e ∈ elementOutcomes con rest (con.Check (con.SetValue item s)).2, e = .nil :=
      fun e he => h e (by simp [elementOutcomes, he])
    simp only [EachConstraint.checkFirst, h0, ne_eq, not_true_eq_false, if_false]
    exact ih (i + 1) _ hr

theorem EachConstraint_checkFirst_prefix (con : CheckableValue) (i : Nat)
    (pre post : List Val) (x : Val) (s : State)
    (hpre : ∀ e ∈ elementOutcomes con pre s, e = .nil)
    (hx : (con.Check (con.SetValue x (elementsState con pre s))).1 ≠ .nil) :
    EachConstraint.checkFirst con i (pre ++ x :: post) s =
      (some (FieldError ("#" ++ toString (i + pre.length))
          (con.Check (con.SetValue x (elementsState con pre s))).1),
        (con.Check (con.SetValue x (elementsState con pre s))).2) := by
  induction pre generalizing i s with
  | nil =>
    simp only [elementsState] at hx
    simp [EachConstraint.checkFirst, elementsState, hx]
  | cons item rest ih =>
    have h0 : (con.Check (con.SetValue item s)).1 = .nil :=
      hpre _ (by simp [elementOutcomes])
    have hr : ∀ e ∈ elementOutcomes con rest (con.Check (con.SetValue item s)).2, e = .nil :=
      fun e he => hpre e (by simp [elementOutcomes, he])
    simp only [elementsState] at hx ⊢
    simp only [List.cons_append, EachConstraint.checkFirst, h0, ne_eq, not_true_eq_false,
      if_false, List.length_cons]
    have e : i + (rest.length + 1) = i + 1 + rest.length := by omega
    rw [e]
    exact ih (i + 1) _ hr hx

/-- C21 (amended). When the default semantic at `Check` time is first-failure, an each node
bound to a sequence returns nil if its child (for a node built by `Each(c)`: the sequential
combinator over `c`, which runs the element's own `Validate` when `c` passes), re-bound to and
checked on the elements in index order, fails on no element, and otherwise returns the single
field-tagged error `ErrField{"#<i>", e}` where `i` is the smallest zero-based index of an
element on which the child fails and `e` is the child's error on that element; the elements
after index `i` are neither bound nor checked, so they do not influence the result. -/
theorem Each_first_failure (c : EachConstraint) (v : Val) (s : State)
    (hsem : s.DefaultCheckSemantic = CheckSemanticFirst) :
    let bound := c.SetValue v s
    ((∀ e ∈ elementOutcomes c.Constraint v.items bound, e = .nil) →
      (c.Check bound).1 = .nil) ∧
    (∀ (pre post : List Val) (x : Val), v.items = pre ++ x :: post →
      let r := c.Constraint.Check (c.Constraint.SetValue x (elementsState c.Constraint pre bound))
      (∀ e ∈ elementOutcomes c.Constraint pre bound, e = .nil) → r.1 ≠ .nil →
      c.Check bound = (.ErrField ("#" ++ toString pre.length) r.1, r.2)) := by
  intro bound
  have hmem : bound.mem c.Value = v := by simp [bound, EachConstraint.SetValue]
  have hdef : ¬ bound.DefaultCheckSemantic = CheckSemanticAll := by
    show ¬ s.DefaultCheckSemantic = CheckSemanticAll
    rw [hsem]; decide
  refine ⟨?_, ?_⟩
  · intro h
    have := EachConstraint_checkFirst_nil c.Constraint 0 v.items bound h
    simp only [EachConstraint.Check, hdef, if_false, hmem]
    generalize EachConstraint.checkFirst c.Constraint 0 v.items bound = r at this
    obtain ⟨r1, r2⟩ := r
    simp only at this
    subst this
    rfl
  · intro pre post x hv r hpre hx
    have := EachConstraint_checkFirst_prefix c.Constraint 0 pre post x bound hpre hx
    simp only [EachConstraint.Check, hdef, if_false, hmem, hv, this, Nat.zero_add]
    rfl

/-- C21 (counterexample). `Each(Range[LoginType](0, 30))` bound to `[]LoginType{3}` under the
first-failure default: the constraint passes on the only element, yet `Check` returns the
error of the element's own `Validate`, field-tagged `#0`. -/
theorem Each_first_failure_counterexample :
    let s := State.init
    let c := Range (LoginType 0) (LoginType 30) s
    let e := Each testMethods [c.1] c.2
    let bound := e.1.SetValue (.slice [LoginType 3]) e.2
    bound.DefaultCheckSemantic = CheckSemanticFirst ∧
    (c.1.Check (c.1.SetValue (LoginType 3) bound)).1 = .nil ∧
    (e.1.Check bound).1 = .ErrField "#0" (.New "recursive validation") ∧
    (e.1.Check bound).1 ≠ .nil := by
  refine ⟨rfl, rfl, rfl, ?_⟩
  show error.ErrField "#0" (.New "recursive validation") ≠ .nil
  simp

/-- C21 (witness). `Each(StrLen(2, 8))` bound to `["ab", "c", "d"]`: element 1 is the first
to fail. -/
theorem Each_first_failure_witness :
    let s := State.init
    let c := StrLen 2 8 s
    let e := Each noMethods [c.1] c.2
    let bound := e.1.SetValue (.slice [.str "ab", .str "c", .str "d"]) e.2
    s.DefaultCheckSemantic = CheckSemanticFirst ∧
    (e.1.Check bound).1 = .ErrField "#1" (.New "must have 2 characters at least") :=
  ⟨rfl,
   congrArg Prod.fst
    ((Each_first_failure
      { Value := 5,
        Constraint := (Constraints noMethods CheckSemanticFirst
          [(StrLen 2 8 State.init).1] (StrLen 2 8 State.init).2).1 }
      (.slice [.str "ab", .str "c", .str "d"])
      (Each noMethods [(StrLen 2 8 State.init).1] (StrLen 2 8 State.init).2).2 rfl).2
      [.str "ab"] [.str "d"] (.str "c") rfl
      (fun e he => by
        have h : e ∈ [error.nil] := he
        simpa using h)
      (by
        show error.New "must have 2 characters at least" ≠ .nil
        simp))⟩
/-! ## C22: `Max` also rejects the values below the zero value -/

/-- C22 (the code at the failing input). `Max(20)` bound to `-5`: `-5 > 20` is false, yet
`Check` returns the error `is less than minimum 0`, because `Max` builds a `RangeConstraint`
whose `Min` is left at the zero value. For all integers `m` and `v`, `Max(m)` bound to `v`
returns an error exactly when `v > m` or `v < 0`, whereas a `MaxConstraint` with maximum `m`,
the type the function does not use, returns an error exactly when `v > m`. -/
theorem Max_rejects_below_zero (s : State) :
    let c := Max (.int 20) s
    let bound := c.1.SetValue (.int (-5)) c.2
    Val.lt (.int 20) (.int (-5)) = false ∧
    (c.1.Check bound).1 = .New "is less than minimum 0" ∧
    (∀ m v : Int,
      let c := Max (.int m) s
      ((c.1.Check (c.1.SetValue (.int v) c.2)).1 ≠ .nil ↔ (m < v ∨ v < 0))) ∧
    (∀ m v : Int,
      let k : MaxConstraint := { Value := s.next, Max := .int m }
      ((k.Check (k.SetValue (.int v) s)).1 ≠ .nil ↔ m < v)) := by
  refine ⟨by decide, ?_, ?_, ?_⟩
  · have e : "is less than minimum " ++ (Val.int 0).fmtV = "is less than minimum 0" := by decide
    simp [Max, State.alloc, RangeConstraint.toCheckableValue, RangeConstraint.SetValue,
      RangeConstraint.Check, State.write, Val.zero, Val.lt, e]
  · intro m v
    simp only [Max, State.alloc, RangeConstraint.toCheckableValue, RangeConstraint.SetValue,
      RangeConstraint.Check, State.write, Val.zero, Val.lt, if_true,
      decide_eq_true_eq]
    by_cases h1 : m < v
    · simp [h1]
    · by_cases h2 : v < 0
      · simp [h1, h2]
      · simp [h1, h2]
  · intro m v
    simp only [MaxConstraint.SetValue, MaxConstraint.Check, State.write, Val.lt,
      if_true, decide_eq_true_eq]
    by_cases h1 : m < v
    · simp [h1]
    · simp [h1]

/-! ## C11, C12: the conditional and the optional wrapper -/

theorem validateHook_getD_of_none (Validate : Methods) (v : Val)
    (h : Validatable Validate v = none) : (validateHook Validate v).getD .nil = .nil := by
  simp [validateHook, h]

theorem validateHook_getD_of_some (Validate : Methods) (v : Val) (r : error)
    (h : Validatable Validate v = some (some r)) :
    (validateHook Validate v).getD .nil = r := by
  by_cases hr : r = .nil <;> simp [validateHook, h, hr]

/-- The outcome of `ValueConstraints.Check` in a state where no child assigns the node's slot:
the failure of the children, or else what the block of the hook returns. -/
theorem ValueConstraints_Check_sequentialOutcome (Validate : Methods) (c : ValueConstraints)
    (s : State) (hown : ∀ con ∈ c.Constraints, Preserves c.Value con) :
    (c.Check Validate s).1 =
      sequentialOutcome c.Semantic (outcomes (c.Constraints.map (fun con => con.Check)) s)
        ((validateHook Validate (s.mem c.Value)).getD .nil) := by
  obtain ⟨hf, ha⟩ := ValueConstraints_children_mem c hown s
  unfold ValueConstraints.Check sequentialOutcome
  rw [aggregate_eq]
  by_cases hsem : c.Semantic = CheckSemanticAll
  · simp only [hsem, if_true]
    rw [checkAll_fst]
    cases hfl : failures (outcomes (c.Constraints.map (fun con => con.Check)) s) with
    | nil =>
      simp only [List.append_nil, List.isEmpty_nil, Bool.not_true, Bool.false_eq_true,
        if_false, listOrNil, ne_eq, not_true_eq_false]
      rw [ha []]
      cases validateHook Validate (s.mem c.Value) <;> rfl
    | cons e es => simp [listOrNil]
  · simp only [hsem, if_false]
    rw [checkFirst_fst]
    by_cases hff : firstFailure (outcomes (c.Constraints.map (fun con => con.Check)) s) = .nil
    · simp only [hff, ne_eq, not_true_eq_false, if_false]
      rw [hf]
      cases validateHook Validate (s.mem c.Value) <;> rfl
    · simp [hff]

/-- The outcome of the node built by `Constraints` once it is bound to `v`, when the hook of `v`
does not panic. -/
theorem Constraints_Check_sequentialOutcome (Validate : Methods) (semantic : CheckSemantic)
    (cons : List CheckableValue) (v : Val) (s st : State)
    (hown : ∀ con ∈ cons, Preserves s.next con) :
    let inner := (Constraints Validate semantic cons s).1
    let outs := outcomes (cons.map (fun con => con.Check)) (inner.SetValue v st)
    (Validatable Validate v = none →
      (inner.Check (inner.SetValue v st)).1 = sequentialOutcome semantic outs .nil) ∧
    (∀ r, Validatable Validate v = some (some r) →
      (inner.Check (inner.SetValue v st)).1 = sequentialOutcome semantic outs r) := by
  intro inner outs
  let c : ValueConstraints := { Value := s.next, Constraints := cons, Semantic := semantic }
  have hb : (c.SetValue v st).mem s.next = v := ValueConstraints_SetValue_mem c hown v st
  have h := ValueConstraints_Check_sequentialOutcome Validate c (c.SetValue v st) hown
  have hcheck : (inner.Check (inner.SetValue v st)).1
      = (c.Check Validate (c.SetValue v st)).1 := rfl
  have houts : outs = outcomes (c.Constraints.map (fun con => con.Check)) (c.SetValue v st) :=
    rfl
  constructor
  · intro hv
    rw [hcheck, h, houts]
    show sequentialOutcome semantic _
      ((validateHook Validate ((c.SetValue v st).mem s.next)).getD .nil) = _
    rw [hb, validateHook_getD_of_none _ _ hv]
  · intro r hv
    rw [hcheck, h, houts]
    show sequentialOutcome semantic _
      ((validateHook Validate ((c.SetValue v st).mem s.next)).getD .nil) = _
    rw [hb, validateHook_getD_of_some _ _ r hv]

theorem MinConstraint_preserves (c : MinConstraint) (a : Nat) (h : a ≠ c.Value) :
    Preserves a c.toCheckableValue := by
  constructor
  · intro v s
    simp [MinConstraint.toCheckableValue, MinConstraint.SetValue, h]
  · intro s
    simp only [MinConstraint.toCheckableValue, MinConstraint.Check]
    split_ifs <;> rfl

theorem MaxConstraint_preserves (c : MaxConstraint) (a : Nat) (h : a ≠ c.Value) :
    Preserves a c.toCheckableValue := by
  constructor
  · intro v s
    simp [MaxConstraint.toCheckableValue, MaxConstraint.SetValue, h]
  · intro s
    simp only [MaxConstraint.toCheckableValue, MaxConstraint.Check]
    split_ifs <;> rfl

/-- C11 (amended). An `If(p, cons...)` node whose slot holds `v` consults `p` in the state in
which `Check` is called, whatever `p` gave when the tree was built: when `p()` is false, `Check`
returns nil and leaves the whole state as it was, so the inner combinator was neither bound nor
checked, whatever `cons` is; when `p()` is true, `Check` binds the sequential combinator over
`cons` to `v` and returns its outcome, which is the failure of `cons` on `v` under the default
semantic in force at construction (the first error, or the list of errors) when some constraint
fails, and otherwise what `v`'s own `Validate` returns, nil for a value whose type has no such
method. -/
theorem If_is_lazy (Validate : Methods) (p : State → Bool) (cons : List CheckableValue)
    (v : Val) (s st : State) (hbound : st.mem (s.next + 1) = v) :
    let n := If Validate p cons s
    let inner := (Constraints Validate s.DefaultCheckSemantic cons s).1
    let outs := outcomes (cons.map (fun con => con.Check)) (inner.SetValue v st)
    (∀ w st', (n.1.SetValue w st').mem (s.next + 1) = w) ∧
    (p st = false → n.1.Check st = (.nil, st)) ∧
    (p st = true → n.1.Check st = inner.Check (inner.SetValue v st)) ∧
    (p st = true → (∀ con ∈ cons, Preserves s.next con) →
      (Validatable Validate v = none →
        (n.1.Check st).1 = sequentialOutcome s.DefaultCheckSemantic outs .nil) ∧
      (∀ r, Validatable Validate v = some (some r) →
        (n.1.Check st).1 = sequentialOutcome s.DefaultCheckSemantic outs r)) := by
  intro n inner outs
  have htrue : p st = true → n.1.Check st = inner.Check (inner.SetValue v st) := by
    intro hp
    simp [n, inner, If, Constraints, IfConstraint.toCheckableValue, IfConstraint.Check, hp,
      hbound]
  refine ⟨?_, ?_, htrue, ?_⟩
  · intro w st'
    simp [n, If, Constraints, IfConstraint.toCheckableValue, IfConstraint.SetValue]
  · intro hp
    simp [n, If, Constraints, IfConstraint.toCheckableValue, IfConstraint.Check, hp]
  · intro hp hown
    rw [htrue hp]
    exact Constraints_Check_sequentialOutcome Validate s.DefaultCheckSemantic cons v s st hown

/-- C11 (counterexample). `If(func() bool { return true }, Range[LoginType](0, 30))` bound to
`LoginType(3)`: the guard is true and the constraint passes on the value, yet `Check` returns
the error of the value's own `Validate`. -/
theorem If_is_lazy_counterexample :
    let c := Range (LoginType 0) (LoginType 30) State.init
    let n := If testMethods (fun _ => true) [c.1] c.2
    let bound := n.1.SetValue (LoginType 3) n.2
    (c.1.Check (c.1.SetValue (LoginType 3) bound)).1 = .nil ∧
    (n.1.Check bound).1 = .New "recursive validation" ∧
    (n.1.Check bound).1 ≠ (c.1.Check (c.1.SetValue (LoginType 3) bound)).1 := by
  refine ⟨rfl, rfl, ?_⟩
  show error.New "recursive validation" ≠ .nil
  simp

/-- C11 (witness). `If(func() bool { return name != "~" }, NotBlank())` where `name` is a
variable at address 100: the tree is built and bound to `""` while `name` is `"x"`; checked
then, it returns the failure of `NotBlank`; checked after `name` was set to `"~"`, it returns
nil and leaves the state as it was. -/
theorem If_is_lazy_witness :
    let p : State → Bool := fun st => decide ((st.mem 100).toStr ≠ "~")
    let s := State.init.write 100 (.str "x")
    let c := NotBlank s
    let n := If noMethods p [c.1] c.2
    let st := (n.1.SetValue (.str "") n.2).write 100 (.str "~")
    p c.2 = true ∧ p st = false ∧ st.mem (c.2.next + 1) = .str "" ∧
    n.1.Check st = (.nil, st) ∧
    p (n.1.SetValue (.str "") n.2) = true ∧
    (n.1.Check (n.1.SetValue (.str "") n.2)).1 = .New "cannot be blank" :=
  ⟨rfl, rfl, rfl,
   (If_is_lazy noMethods (fun st => decide ((st.mem 100).toStr ≠ "~"))
      [(NotBlank (State.init.write 100 (.str "x"))).1] (.str "")
      (NotBlank (State.init.write 100 (.str "x"))).2 _ rfl).2.1 rfl,
   rfl,
   (((If_is_lazy noMethods (fun st => decide ((st.mem 100).toStr ≠ "~"))
      [(NotBlank (State.init.write 100 (.str "x"))).1] (.str "")
      (NotBlank (State.init.write 100 (.str "x"))).2
      ((If noMethods (fun st => decide ((st.mem 100).toStr ≠ "~"))
        [(NotBlank (State.init.write 100 (.str "x"))).1]
        (NotBlank (State.init.write 100 (.str "x"))).2).1.SetValue (.str "")
       (If noMethods (fun st => decide ((st.mem 100).toStr ≠ "~"))
        [(NotBlank (State.init.write 100 (.str "x"))).1]
        (NotBlank (State.init.write 100 (.str "x"))).2).2) rfl).2.2.2 rfl
      (by
        intro con hcon
        simp only [List.mem_singleton] at hcon
        subst hcon
        exact NotBlankConstraint_preserves _ _ (by decide))).1 rfl).trans rfl⟩

/-- C12 (amended). An `IfNotNil(cons...)` node bound to the nil pointer returns nil from `Check`,
whatever `cons` is, and leaves the state as it was; bound to a pointer to `x` it binds the
sequential combinator over `cons` to `x` and returns its outcome, which is the failure of `cons`
on `x` under the default semantic in force at construction (the first error, or the list of
errors) when some constraint fails, and otherwise what `x`'s own `Validate` returns, nil for a
value whose type has no such method. -/
theorem IfNotNil_short_circuit (Validate : Methods) (cons : List CheckableValue) (t : String)
    (s st : State) :
    let n := IfNotNil Validate cons s
    let inner := (Constraints Validate s.DefaultCheckSemantic cons s).1
    n.1.Check (n.1.SetValue (.ptr t none) st) = (.nil, n.1.SetValue (.ptr t none) st) ∧
    ∀ x : Val,
      let bound := n.1.SetValue (.ptr t (some x)) st
      let outs := outcomes (cons.map (fun con => con.Check)) (inner.SetValue x bound)
      n.1.Check bound = inner.Check (inner.SetValue x bound) ∧
      ((∀ con ∈ cons, Preserves s.next con) →
        (Validatable Validate x = none →
          (n.1.Check bound).1 = sequentialOutcome s.DefaultCheckSemantic outs .nil) ∧
        (∀ r, Validatable Validate x = some (some r) →
          (n.1.Check bound).1 = sequentialOutcome s.DefaultCheckSemantic outs r)) := by
  intro n inner
  refine ⟨?_, ?_⟩
  · simp [n, IfNotNil, Constraints, IfNotNilConstraint.toCheckableValue,
      IfNotNilConstraint.Check, IfNotNilConstraint.SetValue, Val.deref]
  · intro x bound outs
    have hd : n.1.Check bound = inner.Check (inner.SetValue x bound) := by
      simp [n, inner, bound, IfNotNil, Constraints, IfNotNilConstraint.toCheckableValue,
        IfNotNilConstraint.Check, IfNotNilConstraint.SetValue, Val.deref]
    refine ⟨hd, ?_⟩
    intro hown
    rw [hd]
    exact Constraints_Check_sequentialOutcome Validate s.DefaultCheckSemantic cons x s bound
      hown

/-- C12 (counterexample). `IfNotNil(Range[LoginType](0, 30))` bound to a pointer to
`LoginType(3)`: the constraint passes on the pointed-to value, yet `Check` returns the error of
that value's own `Validate`. -/
theorem IfNotNil_short_circuit_counterexample :
    let c := Range (LoginType 0) (LoginType 30) State.init
    let n := IfNotNil testMethods [c.1] c.2
    let bound := n.1.SetValue (.ptr "LoginType" (some (LoginType 3))) n.2
    (c.1.Check (c.1.SetValue (LoginType 3) bound)).1 = .nil ∧
    (n.1.Check bound).1 = .New "recursive validation" ∧
    (n.1.Check bound).1 ≠ (c.1.Check (c.1.SetValue (LoginType 3) bound)).1 := by
  refine ⟨rfl, rfl, ?_⟩
  show error.New "recursive validation" ≠ .nil
  simp

/-- C12 (witness). `IfNotNil[*int, int](Min(0), Max(20))` of the schema test: bound to a
pointer to `20` it returns nil, bound to a pointer to `25` it returns the failure of `Max(20)`,
and bound to the nil pointer it returns nil. -/
theorem IfNotNil_short_circuit_witness :
    let c1 := Min (.int 0) State.init
    let c2 := Max (.int 20) c1.2
    let n := IfNotNil noMethods [c1.1, c2.1] c2.2
    (n.1.Check (n.1.SetValue (.ptr "int" (some (.int 20))) n.2)).1 = .nil ∧
    (n.1.Check (n.1.SetValue (.ptr "int" (some (.int 25))) n.2)).1
      = .New "is greater than maximum 20" ∧
    (n.1.Check (n.1.SetValue (.ptr "int" none) n.2)).1 = .nil :=
  have hown : ∀ con ∈ [(Min (.int 0) State.init).1,
      (Max (.int 20) (Min (.int 0) State.init).2).1],
      Preserves (Max (.int 20) (Min (.int 0) State.init).2).2.next con := by
    intro con hcon
    simp only [List.mem_cons, List.mem_singleton, List.not_mem_nil, or_false] at hcon
    rcases hcon with rfl | rfl
    · exact MinConstraint_preserves _ _ (by decide)
    · exact RangeConstraint_preserves _ _ (by decide)
  ⟨((((IfNotNil_short_circuit noMethods
      [(Min (.int 0) State.init).1, (Max (.int 20) (Min (.int 0) State.init).2).1] "int"
      (Max (.int 20) (Min (.int 0) State.init).2).2 _).2 (.int 20)).2 hown).1 rfl).trans rfl,
   ((((IfNotNil_short_circuit noMethods
      [(Min (.int 0) State.init).1, (Max (.int 20) (Min (.int 0) State.init).2).1] "int"
      (Max (.int 20) (Min (.int 0) State.init).2).2 _).2 (.int 25)).2 hown).1 rfl).trans rfl,
   congrArg Prod.fst (IfNotNil_short_circuit noMethods
      [(Min (.int 0) State.init).1, (Max (.int 20) (Min (.int 0) State.init).2).1] "int"
      (Max (.int 20) (Min (.int 0) State.init).2).2 _).1⟩

/-! ## The hook of a pointer -/

/-- The method set of `*LoginType` holds the `Validate` of `LoginType`: the hook of a pointer to
`LoginType(3)` returns the error of the method, in `First[*LoginType]()` and in `Value(&lt)`
alike; on the nil `*LoginType` the call panics, and `*int` has no hook. -/
theorem Validatable_through_pointer :
    Validatable testMethods (.ptr "LoginType" (some (LoginType 3)))
      = some (some (.New "recursive validation")) ∧
    Validatable testMethods (.ptr "LoginType" none) = some none ∧
    Validatable testMethods (.ptr "int" (some (.int 3))) = none ∧
    ((First testMethods [] State.init).1.Check
      ((First testMethods [] State.init).1.SetValue (.ptr "LoginType" (some (LoginType 3)))
        (First testMethods [] State.init).2)).1 = .New "recursive validation" ∧
    ((Value testMethods (.ptr "LoginType" (some (LoginType 3))) [] State.init).1.Check
      (Value testMethods (.ptr "LoginType" (some (LoginType 3))) [] State.init).2).1
      = .New "recursive validation" :=
  ⟨rfl, rfl, rfl, rfl, rfl⟩

end vee
